import Mathlib

/-!
# Verification of the visionQuest-offline multi-signal image analysis core

Shallow embedding of the local AI analysis pipeline:
`src/services/localAiService.ts` (the aggregator `analyzeImageLocal`, the
dominant-color summarizer `getDominantColors`, the OCR post-filter
`performOCR`, the metadata extractor `extractExifData`) and the record
lifecycle controller `analyzeSingleRecord` from the application root file.

Conventions of the embedding:
* JavaScript numbers are modelled as exact rationals (`ℚ`); integer-valued
  quantities (ages after `Math.round`, counts) as `ℤ`/`ℕ`.
* JavaScript strings are Lean `String`s; the OCR text, which is subjected to
  character-level splitting/trimming/filtering, is modelled as `List Char`.
* `undefined`-able values are `Option`s; a rejected promise / thrown error is
  `Except String`.
* The asynchronous adapter calls are modelled by an environment record
  (`AnalyzeEnv`) holding each adapter's settled outcome; `analyzeImageLocal`
  is then a pure function of that environment.
-/

namespace VisionQuest

/-- UI language selector (`Language` from `translations.ts`,
values `'pl' | 'en'`). -/
inductive Lang where
  | pl
  | en
deriving DecidableEq, Repr, Inhabited

/-- Horizontal face position, the `'left' | 'center' | 'right'` union of
`FaceDetail.position` in `types.ts`. -/
inductive FacePos where
  | left
  | center
  | right
deriving DecidableEq, Repr, Inhabited

/-- A bounding box `{x, y, width, height}` in normalized-canvas coordinates. -/
structure Box where
  x : ℚ
  y : ℚ
  width : ℚ
  height : ℚ
deriving DecidableEq, Repr, Inhabited

/-- Structure `FaceDetail` from `types.ts`. -/
structure FaceDetail where
  age : ℤ
  gender : String
  genderProbability : ℚ
  emotion : String
  emotionScore : ℚ
  position : FacePos
  box : Box
deriving DecidableEq, Repr, Inhabited

/-- A raw detection from the face analyzer
(`faceapi.detectAllFaces(...).withFaceLandmarks().withAgeAndGender()
.withFaceExpressions()`): bounding box, raw age, gender with probability, and
the expression distribution `fd.expressions` as a key/score entry list in
`Object.entries` order (`none` models an absent/falsy `expressions`). -/
structure RawFace where
  box : Box
  age : ℚ
  gender : String
  genderProbability : ℚ
  expressions : Option (List (String × ℚ))
deriving DecidableEq, Repr, Inhabited

/-- One object detection `{class, score}` from the coco-ssd provider
(`class` is a Lean keyword, so the field is named `cls`). -/
structure Detection where
  cls : String
  score : ℚ
deriving DecidableEq, Repr, Inhabited

/-- One scene prediction `{className, probability}` from the mobilenet
provider. -/
structure ScenePred where
  className : String
  probability : ℚ
deriving DecidableEq, Repr, Inhabited

/-- The `exif` block built by `extractExifData` (fields of
`ImageAnalysis.exif` in `types.ts`; `dateTime` is always assigned a string
there, the other fields may be `undefined`). -/
structure ExifFields where
  make : Option String
  model : Option String
  dateTime : String
  iso : Option ℚ
  exposureTime : Option String
  fNumber : Option String
deriving DecidableEq, Repr, Inhabited

/-- A GPS coordinate `{lat, lng}`. -/
structure GeoLoc where
  lat : ℚ
  lng : ℚ
deriving DecidableEq, Repr, Inhabited

/-- The settled result of `extractExifData`:
* `empty` models the `{}` returned when parsing fails or yields no output —
  an object with no own keys at all;
* `parsed exif location` models the success branch, whose object literal
  always carries an `exif` key (an object, hence truthy) and always carries a
  `location` key whose value may be `undefined` (GPS absent). -/
inductive MetaResult where
  | empty
  | parsed (exif : ExifFields) (location : Option GeoLoc)
deriving DecidableEq, Repr, Inhabited

/-- Record `ImageAnalysis` from `types.ts`, as constructed by the local service.
`ageEstimate`/`emotionEstimate` are always assigned strings (possibly `""`),
`faces` is always an array, `ocrText` is `string | undefined` and is
modelled at character-list level, `exif`/`location` are absent at
construction time. -/
structure ImageAnalysis where
  objects : List String
  labels : List String
  description : String
  confidenceScore : ℚ
  dominantColors : List String
  ageEstimate : String
  emotionEstimate : String
  faces : List FaceDetail
  markedUpImageUrl : String
  scenery : String
  ocrText : Option (List Char)
  exif : Option ExifFields
  location : Option GeoLoc
deriving DecidableEq, Repr, Inhabited

/-- Record status `'pending' | 'analyzing' | 'completed' | 'error'`. -/
inductive Status where
  | pending
  | analyzing
  | completed
  | error
deriving DecidableEq, Repr, Inhabited

/-- Record `ImageRecord` from `types.ts` (the `base64` field, unused by the
lifecycle controller, is omitted). -/
structure ImageRecord where
  id : String
  name : String
  url : String
  mimeType : String
  size : ℚ
  status : Status
  analysis : Option ImageAnalysis
  error : Option String
deriving DecidableEq, Repr, Inhabited

/-- JavaScript `Math.round`: round half toward positive infinity. -/
def jsRound (q : ℚ) : ℤ := ⌊q + 1 / 2⌋

/-- Truthiness fallback `s || fb` for a possibly-undefined string: both
`undefined` and the empty string are falsy. -/
def jsOrStr (s : Option String) (fb : String) : String :=
  match s with
  | none => fb
  | some s => if s = "" then fb else s

/-- Truthiness fallback `q || fb` for numbers: `0` is falsy. -/
def jsOrQ (q fb : ℚ) : ℚ := if q = 0 then fb else q

/-- JavaScript `String.prototype.split(sep)` at character-list level:
the empty string splits to `[""]` and a trailing separator yields a trailing
empty group. -/
def jsSplit (sep : Char) : List Char → List (List Char)
  | [] => [[]]
  | c :: rest =>
    match jsSplit sep rest with
    | [] => [[]]
    | g :: gs => if c = sep then [] :: g :: gs else (c :: g) :: gs

/-- Whitespace test backing the model of `String.prototype.trim`. -/
def isJsWs (c : Char) : Bool := c.isWhitespace

/-- JavaScript `String.prototype.trim` at character-list level. -/
def jsTrim (l : List Char) : List Char :=
  ((l.dropWhile isJsWs).reverse.dropWhile isJsWs).reverse

/-- Membership in the OCR filter's character class
`[a-zA-Z0-9ąęćłńóśźżĄĘĆŁŃÓŚŹŻ]`. -/
def isOcrAlphaNum (c : Char) : Bool :=
  ('a' ≤ c && c ≤ 'z') || ('A' ≤ c && c ≤ 'Z') || ('0' ≤ c && c ≤ '9') ||
    "ąęćłńóśźżĄĘĆŁŃÓŚŹŻ".toList.contains c

/-- First-occurrence deduplication, the effect of `Array.from(new Set(xs))`
on a JavaScript array. -/
def jsDedup {α : Type} [DecidableEq α] : List α → List α
  | [] => []
  | a :: l => a :: jsDedup (l.filter (fun b => b ≠ a))
termination_by l => l.length
decreasing_by
  simp only [List.length_cons]
  exact Nat.lt_succ_of_le (List.length_filter_le _ _)

/-- Capitalization `s.charAt(0).toUpperCase() + s.slice(1)`
(ASCII-accurate). -/
def capitalizeFirst (s : String) : String :=
  match s.toList with
  | [] => ""
  | c :: rest => String.mk (c.toUpper :: rest)

/-- Prefix of a string before its first comma, `s.split(',')[0]`. -/
def takeBeforeComma (s : String) : String :=
  String.mk (s.toList.takeWhile (fun c => c ≠ ','))

/-- Record-literal lookup `table[key]`, `none` when the key is absent. -/
def tableGet (table : List (String × String)) (key : String) : Option String :=
  (table.find? (fun p => p.1 == key)).map Prod.snd

/-- The `categoryTranslations` record of `localAiService.ts`. -/
def categoryTranslations : List (String × String) := [
  ("person", "osoba"), ("dog", "pies"), ("cat", "kot"), ("car", "samochód"),
  ("motorcycle", "motocykl"),
  ("bus", "autobus"), ("train", "pociąg"), ("truck", "ciężarówka"),
  ("boat", "łódź"),
  ("traffic light", "sygnalizacja świetlna"), ("fire hydrant", "hydrant"),
  ("stop", "znak stop"), ("parking meter", "parkometr"), ("bench", "ławka"),
  ("bird", "ptak"), ("horse", "koń"), ("sheep", "owca"), ("cow", "krowa"),
  ("elephant", "słoń"),
  ("bear", "niedźwiedź"), ("zebra", "zebra"), ("giraffe", "żyrafa"),
  ("backpack", "plecak"),
  ("umbrella", "parasol"), ("handbag", "torebka"), ("tie", "krawat"),
  ("suitcase", "walizka"),
  ("frisbee", "frisbee"), ("skis", "narty"), ("snowboard", "snowboard"),
  ("sports ball", "piłka sportowa"),
  ("kite", "latawiec"), ("baseball bat", "kij baseballowy"),
  ("baseball glove", "rękawica"),
  ("skateboard", "deskorolka"), ("surfboard", "deska surfingowa"),
  ("tennis racket", "rakieta"),
  ("bottle", "butelka"), ("wine glass", "kieliszek"), ("cup", "kubek"),
  ("fork", "widelec"),
  ("knife", "nóż"), ("spoon", "łyżka"), ("bowl", "miska"),
  ("banana", "banan"), ("apple", "jabłko"),
  ("sandwich", "kanapka"), ("orange", "pomarańcza"), ("broccoli", "brokuły"),
  ("carrot", "marchewka"),
  ("hot dog", "hot dog"), ("pizza", "pizza"), ("donut", "pączek"),
  ("cake", "ciasto"),
  ("chair", "krzesło"), ("couch", "kanapa"),
  ("potted plant", "roślina doniczkowa"),
  ("bed", "łóżko"), ("dining table", "stół"), ("toilet", "toaleta"),
  ("tv", "telewizor"),
  ("laptop", "laptop"), ("mouse", "mysz"), ("remote", "pilot"),
  ("keyboard", "klawiatura"),
  ("cell phone", "telefon"), ("microwave", "mikrofalówka"),
  ("oven", "piekarnik"),
  ("toaster", "toster"), ("sink", "zlew"), ("refrigerator", "lodówka"),
  ("book", "książka"),
  ("clock", "zegar"), ("vase", "wazon"), ("scissors", "nożyczki"),
  ("teddy bear", "pluszowy miś"),
  ("hair drier", "suszarka"), ("toothbrush", "szczoteczka")]

/-- The `sceneTranslations` record of `localAiService.ts`. -/
def sceneTranslations : List (String × String) := [
  ("seashore", "wybrzeże / plaża"), ("lakeside", "nad jeziorem"),
  ("mountain", "góry"),
  ("valley", "dolina"), ("forest", "las"), ("library", "biblioteka"),
  ("office", "biuro"),
  ("restaurant", "restauracja"), ("street", "ulica"), ("park", "park"),
  ("garden", "ogród"),
  ("living room", "salon"), ("kitchen", "kuchnia"), ("bedroom", "sypialnia"),
  ("classroom", "sala lekcyjna"), ("gym", "siłownia"),
  ("hospital", "szpital")]

/-- The `emotionTranslations` record (shared by the service and sidebar),
mapping an emotion key to its `(pl, en)` display pair. -/
def emotionTranslations : List (String × (String × String)) := [
  ("neutral", ("Neutralny", "Neutral")),
  ("happy", ("Radość", "Happy")),
  ("sad", ("Smutek", "Sad")),
  ("angry", ("Gniew", "Angry")),
  ("fearful", ("Strach", "Fearful")),
  ("disgusted", ("Obrzydzenie", "Disgusted")),
  ("surprised", ("Zaskoczenie", "Surprised"))]

/-- Lookup with the `emotionTranslations[e] || {pl: e, en: e}` fallback. -/
def emotionTransGet (emotion : String) : String × String :=
  match emotionTranslations.find? (fun p => p.1 == emotion) with
  | some p => p.2
  | none => (emotion, emotion)

/-- Emotion selection from `fd.expressions`:
`Object.entries(fd.expressions).sort(([,a],[,b]) => b - a)` (descending by
score, stable) followed by taking entry 0; an absent (falsy) distribution
leaves the defaults `("neutral", 0)`. -/
def pickEmotion (expressions : Option (List (String × ℚ))) : String × ℚ :=
  match expressions with
  | none => ("neutral", 0)
  | some entries =>
    match entries.mergeSort (fun a b => decide (b.2 ≤ a.2)) with
    | [] => ("neutral", 0)
    | e :: _ => e

/-- Horizontal center of a face box, `box.x + box.width / 2`. -/
def faceCenterX (box : Box) : ℚ := box.x + box.width / 2

/-- Position classification of a face box against the normalized image width
(lines 229–232 of `localAiService.ts`). -/
def facePosition (imageWidth : ℚ) (box : Box) : FacePos :=
  let centerX := faceCenterX box
  if centerX < imageWidth * 0.33 then .left
  else if centerX > imageWidth * 0.66 then .right
  else .center

/-- Conversion of one raw face detection into a `FaceDetail`
(the `faceDetections.forEach` body, lines 225–258). -/
def toFaceDetail (imageWidth : ℚ) (fd : RawFace) : FaceDetail :=
  let e := pickEmotion fd.expressions
  { age := jsRound fd.age
    gender := fd.gender
    genderProbability := fd.genderProbability
    emotion := e.1
    emotionScore := e.2
    position := facePosition imageWidth fd.box
    box := fd.box }

/-- Hex digit character `0-9a-f` as produced by `Number.toString(16)`. -/
def hexDigitChar (d : ℕ) : Char :=
  if d < 10 then Char.ofNat (48 + d) else Char.ofNat (87 + d)

/-- Base-16 digit expansion, most significant digit first, empty at zero. -/
def natToHexAux : ℕ → List Char
  | 0 => []
  | n + 1 => natToHexAux ((n + 1) / 16) ++ [hexDigitChar ((n + 1) % 16)]
decreasing_by exact Nat.div_lt_self (Nat.succ_pos n) (by norm_num)

/-- JavaScript `Number.prototype.toString(16)` on a natural number. -/
def natToHex (n : ℕ) : List Char := if n = 0 then ['0'] else natToHexAux n

/-- Hex color literal
`"#" + ((1 << 24) + (r << 16) + (g << 8) + b).toString(16).slice(1)`
(line 342 of `localAiService.ts`). -/
def hexColor (r g b : ℕ) : String :=
  "#" ++ String.mk ((natToHex (2 ^ 24 + (r * 2 ^ 16 + (g * 2 ^ 8 + b)))).drop 1)

/-- Test for a lowercase hex digit character. -/
def isHexDigit (c : Char) : Bool :=
  ('0' ≤ c && c ≤ '9') || ('a' ≤ c && c ≤ 'f')

/-- Validity of a six-digit `#rrggbb` hex color string. -/
def isValidHexColor (s : String) : Bool :=
  match s.toList with
  | '#' :: rest => rest.length == 6 && rest.all isHexDigit
  | _ => false

/-- Fixed-stride sampling of the canvas byte array: the loop
`for (i = 0; i < imageData.length; i += 4000)` reading bytes `i`, `i + 1`
and `i + 2` at each visited offset. A byte read past the end is `undefined`,
which the `<<` coercion in the hex formula turns into `0`. -/
def samplePixels : List ℕ → List (ℕ × ℕ × ℕ)
  | [] => []
  | [r] => [(r, 0, 0)]
  | [r, g] => [(r, g, 0)]
  | r :: g :: b :: rest =>
    (r, g, b) :: samplePixels ((r :: g :: b :: rest).drop 4000)
termination_by l => l.length
decreasing_by
  simp only [List.length_drop, List.length_cons]
  omega

/-- Frequency tally into a JavaScript object: plain string keys enumerate in
insertion order, so the tally is an association list where an unseen key is
appended and a seen key is incremented in place. -/
def insertCount (acc : List (String × ℕ)) (h : String) : List (String × ℕ) :=
  if acc.any (fun p => p.1 == h) then
    acc.map (fun p => if p.1 == h then (p.1, p.2 + 1) else p)
  else acc ++ [(h, 1)]

/-- The tally of the whole sample, in first-encounter key order. -/
def countColors (hexes : List String) : List (String × ℕ) :=
  hexes.foldl insertCount []

/-- Frequency a tally assigns to a key (`colors[hex] || 0`). -/
def colorFreq (cnts : List (String × ℕ)) (s : String) : ℕ :=
  match cnts.find? (fun p => p.1 == s) with
  | some p => p.2
  | none => 0

/-- Hex strings of the sampled pixels, in sampling order. -/
def sampleHexes (imageData : List ℕ) : List String :=
  (samplePixels imageData).map (fun p => hexColor p.1 p.2.1 p.2.2)

/-- Dominant-color extraction `getDominantColors` (lines 333–346): sample
the pixel bytes at stride 4000, tally hex-string frequencies, sort the
entries by descending count (`Array.prototype.sort` is stable, preserving
insertion order among ties) and keep the first three keys. -/
def getDominantColors (imageData : List ℕ) : List String :=
  let colors := countColors (sampleHexes imageData)
  ((colors.mergeSort (fun a b => decide (b.2 ≤ a.2))).take 3).map Prod.fst

/-- JavaScript `Array.prototype.join(sep)` at character-list level. -/
def jsJoin (sep : Char) : List (List Char) → List Char
  | [] => []
  | [l] => l
  | l :: ls => l ++ sep :: jsJoin sep ls

/-- Per-line OCR filter (lines 174–182 of `localAiService.ts`): a line is
kept, trimmed, when it is non-blank and its alphanumeric characters number
at least two and make up at least 30% of the trimmed line. -/
def ocrKeep (line : List Char) : Option (List Char) :=
  let trimmedLine := jsTrim line
  if trimmedLine = [] then none
  else
    let alphaNumOnly := trimmedLine.filter isOcrAlphaNum
    if 2 ≤ alphaNumOnly.length ∧
        (0.3 : ℚ) ≤ (alphaNumOnly.length : ℚ) / (trimmedLine.length : ℚ)
    then some trimmedLine else none

/-- OCR post-filter `performOCR` (lines 166–191) applied to the settled
recognizer outcome: any failure yields the empty string; a recognized text
is split into lines, each line filtered by `ocrKeep`, the kept lines
rejoined with newlines and trimmed, and the result kept only when it has
at least three characters. -/
def performOCR (raw : Except String (List Char)) : List Char :=
  match raw with
  | .error _ => []
  | .ok text =>
    let lines := jsSplit '\n' text
    let filteredLines := lines.filterMap ocrKeep
    let cleanedText := jsTrim (jsJoin '\n' filteredLines)
    if 3 ≤ cleanedText.length then cleanedText else []

/-- Settled outcomes of the asynchronous adapter calls made by one
`analyzeImageLocal` invocation, plus the normalized canvas data it reads.
`objectModel`/`sceneModel` are `none` when the provider singleton is not
loaded (the `objectModel ? ... : Promise.resolve([])` guard); when loaded,
their `detect`/`classify` promise settles to a value or a rejection, and a
rejection inside `Promise.all` rejects the whole aggregate. The face
promise carries its own `.catch(() => [])`, and OCR its own try/catch. -/
structure AnalyzeEnv where
  imageWidth : ℚ
  objectModel : Option (Except String (List Detection))
  sceneModel : Option (Except String (List ScenePred))
  faceResult : Except String (List RawFace)
  ocrRawText : Except String (List Char)
  imageData : List ℕ
  markupOk : Bool
  markupUrl : String
deriving Repr, Inhabited

/-- Legacy scalar summary derivation (lines 264–286 of
`localAiService.ts`), a pure function of the language and the sorted face
sequence: empty strings when no face was detected; otherwise an age
estimate built from the average age of all faces and the first (leftmost)
face's gender, and an emotion estimate from the first face included only
when its top emotion score exceeds 0.1. -/
def legacySummaries (lang : Lang) (faces : List FaceDetail) :
    String × String :=
  match faces with
  | [] => ("", "")
  | firstFace :: _ =>
    let avgAge : ℚ :=
      (faces.foldl (fun acc curr => acc + (curr.age : ℚ)) 0) /
        (faces.length : ℚ)
    let genderTrans :=
      if firstFace.gender = "male" then
        match lang with | .pl => "Mężczyzna" | .en => "Male"
      else
        match lang with | .pl => "Kobieta" | .en => "Female"
    let countLabel :=
      if 1 < faces.length then
        match lang with
        | .pl => "Wykryto " ++ toString faces.length ++ " twarze. "
        | .en => "Detected " ++ toString faces.length ++ " faces. "
      else ""
    let ageEst :=
      match lang with
      | .pl => countLabel ++ "Osoba ok. " ++ toString (jsRound avgAge) ++
          " lat (" ++ genderTrans ++ ")"
      | .en => countLabel ++ "Person approx. " ++ toString (jsRound avgAge) ++
          " years (" ++ genderTrans ++ ")"
    let emoEst :=
      if 0.1 < firstFace.emotionScore then
        let emTrans := emotionTransGet firstFace.emotion
        let pct := toString (jsRound (firstFace.emotionScore * 100))
        match lang with
        | .pl => emTrans.1 ++ " (" ++ pct ++ "%)"
        | .en => emTrans.2 ++ " (" ++ pct ++ "%)"
      else ""
    (ageEst, emoEst)

/-- Face pipeline of the aggregator: convert each raw detection and sort
by ascending box x (`faces.sort((a, b) => a.box.x - b.box.x)`, line 262;
`Array.prototype.sort` is stable). -/
def processFaces (imageWidth : ℚ) (faceDetections : List RawFace) :
    List FaceDetail :=
  (faceDetections.map (toFaceDetail imageWidth)).mergeSort
    (fun a b => decide (a.box.x ≤ b.box.x))

/-- Body of the aggregator `analyzeImageLocal` (lines 193–330 of
`localAiService.ts`) after the `Promise.all` has settled successfully:
normalization, face processing, legacy summaries, colors, description and
assembly of the snapshot. -/
def buildAnalysis (env : AnalyzeEnv) (lang : Lang)
    (detections : List Detection) (scenePredictions : List ScenePred) :
    ImageAnalysis :=
  let faceDetections : List RawFace := match env.faceResult with
    | .ok fds => fds
    | .error _ => []
  let ocrText := performOCR env.ocrRawText
  let objects := detections.map
    (fun d => (tableGet categoryTranslations d.cls).getD d.cls)
  let topScene := match scenePredictions with
    | [] => ""
    | p :: _ => (takeBeforeComma p.className).toLower
  let scenery := (tableGet sceneTranslations topScene).getD topScene
  let imageWidth := env.imageWidth
  let markedUpImageUrl :=
    if 0 < faceDetections.length ∧ env.markupOk then env.markupUrl else ""
  let faces := processFaces imageWidth faceDetections
  let summaries : String × String := legacySummaries lang faces
  let colors := getDominantColors env.imageData
  let sceneStr := match lang with
    | .pl => "Sceneria: " ++ scenery ++ ". "
    | .en => "Scene: " ++ scenery ++ ". "
  let descObjects :=
    if 0 < objects.length then
      match lang with
      | .pl => "Wykryto: " ++ String.intercalate ", " (jsDedup objects) ++ ". "
      | .en => "Detected: " ++
          String.intercalate ", " (jsDedup (detections.map (fun d => d.cls))) ++ ". "
    else ""
  let faceDescs := faces.map (fun f =>
    let g :=
      if f.gender = "male" then
        match lang with | .pl => "Mężczyzna" | .en => "Man"
      else
        match lang with | .pl => "Kobieta" | .en => "Woman"
    let p := match f.position, lang with
      | .left, .pl => "po lewej"
      | .left, .en => "on left"
      | .right, .pl => "po prawej"
      | .right, .en => "on right"
      | .center, .pl => "w środku"
      | .center, .en => "center"
    let eTrans := emotionTransGet f.emotion
    let e := match lang with | .pl => eTrans.1 | .en => eTrans.2
    g ++ " (" ++ p ++ ", " ++ e ++ ")")
  let descFaces :=
    if 0 < faces.length then
      match lang with
      | .pl => "Twarze: " ++ String.intercalate "; " faceDescs ++ "."
      | .en => "Faces: " ++ String.intercalate "; " faceDescs ++ "."
    else ""
  let description := sceneStr ++ descObjects ++ descFaces
  {
    objects := objects
    labels := (jsDedup (scenery :: objects)).map capitalizeFirst
    description := description
    confidenceScore :=
      match scenePredictions with
      | [] => 0.8
      | p :: _ => jsOrQ p.probability 0.8
    dominantColors := colors
    ageEstimate := summaries.1
    emotionEstimate := summaries.2
    faces := faces
    markedUpImageUrl := markedUpImageUrl
    scenery := capitalizeFirst scenery
    ocrText := if ocrText = [] then none else some ocrText
    exif := none
    location := none }

/-- The aggregator `analyzeImageLocal` (lines 160–331): the object and
scene calls are guarded only for an unloaded provider
(`objectModel ? objectModel.detect(...) : Promise.resolve([])`), so a
rejection from either rejects the surrounding `Promise.all` and the whole
call; the face and OCR outcomes are absorbed inside `buildAnalysis`. -/
def analyzeImageLocal (env : AnalyzeEnv) (lang : Lang) :
    Except String ImageAnalysis :=
  match (match env.objectModel with
    | some r => r
    | none => Except.ok []) with
  | .error e => .error e
  | .ok detections =>
    match (match env.sceneModel with
      | some r => r
      | none => Except.ok []) with
    | .error e => .error e
    | .ok scenePredictions =>
      .ok (buildAnalysis env lang detections scenePredictions)

/-- Aggregator failure as caught by `analyzeSingleRecord`: the thrown
value's `.message` property, absent when the throw carries none. -/
structure AnalysisErr where
  message : Option String
deriving DecidableEq, Repr, Inhabited

/-- State update entering `analyzing` (lines 379–381): set the status and
clear the error message of the matching record. -/
def setAnalyzing (recs : List ImageRecord) (recordId : String) :
    List ImageRecord :=
  recs.map (fun img =>
    if img.id = recordId then
      { img with status := .analyzing, error := none }
    else img)

/-- State update entering `completed` (lines 387–393): set the status and
attach the aggregator snapshot on the matching record. -/
def setCompleted (recs : List ImageRecord) (recordId : String)
    (analysis : ImageAnalysis) : List ImageRecord :=
  recs.map (fun img =>
    if img.id = recordId then
      { img with status := .completed, analysis := some analysis }
    else img)

/-- State update entering `error` (lines 413–419): set the status and
attach `error.message || t.unknownError` on the matching record. -/
def setError (recs : List ImageRecord) (recordId : String)
    (message : Option String) (fallback : String) : List ImageRecord :=
  recs.map (fun img =>
    if img.id = recordId then
      { img with status := .error, error := some (jsOrStr message fallback) }
    else img)

/-- Guard `exifData.exif || exifData.location` on the background merge: the
success result always carries a truthy `exif` object, the empty result
carries neither key. -/
def metaGuard : MetaResult → Bool
  | .empty => false
  | .parsed _ _ => true

/-- Shallow spread `{ ...img.analysis, ...exifData }`: the success result's
own keys `exif` and `location` (the latter possibly holding `undefined`)
overwrite those of the analysis; the empty result has no own keys and
changes nothing. -/
def mergeAnalysis (a : ImageAnalysis) : MetaResult → ImageAnalysis
  | .empty => a
  | .parsed e loc => { a with exif := some e, location := loc }

/-- Background metadata write (lines 397–410 of the application root): when
the guard passes, map over the current records and merge into the record of
the given identity only when its analysis still exists. -/
def applyMetaUpdate (recs : List ImageRecord) (recordId : String)
    (exifData : MetaResult) : List ImageRecord :=
  if metaGuard exifData then
    recs.map (fun img =>
      if img.id = recordId then
        match img.analysis with
        | none => img
        | some a => { img with analysis := some (mergeAnalysis a exifData) }
      else img)
  else recs

/-- Foreground pass of `analyzeSingleRecord` (lines 377–421): mark the
record analyzing, then either attach the aggregator snapshot with status
`completed` or attach the failure message with status `error`. The
background metadata merge is the separate later step `applyMetaUpdate`. -/
def analyzeSingleRecord (recs : List ImageRecord) (recordId : String)
    (aggResult : Except AnalysisErr ImageAnalysis) (fallback : String) :
    List ImageRecord :=
  let marked := setAnalyzing recs recordId
  match aggResult with
  | .ok analysis => setCompleted marked recordId analysis
  | .error e => setError marked recordId e.message fallback

/-- Sample completed analysis that already carries a GPS location. -/
def locAnalysisC2 : ImageAnalysis :=
  { (default : ImageAnalysis) with location := some ⟨1, 2⟩ }

/-- Sample record whose analysis is present. -/
def recW : ImageRecord :=
  { id := "r1", name := "photo.jpg", url := "blob:u", mimeType := "image/jpeg",
    size := 10, status := .completed, analysis := some locAnalysisC2,
    error := none }

/-- Sample record of another identity with no analysis attached. -/
def recW2 : ImageRecord := { recW with id := "r2", analysis := none }

/-- Environment for the C1 witness: one face whose box center is at
0.33 of the width. -/
def envC1 : AnalyzeEnv :=
  { imageWidth := 100
    objectModel := none
    sceneModel := none
    faceResult := .ok [⟨⟨8, 0, 50, 10⟩, 30, "male", 0.9,
      some [("happy", 0.8)]⟩]
    ocrRawText := .error "ocr unavailable"
    imageData := []
    markupOk := false
    markupUrl := "" }

/-- Snapshot returned by the aggregator on `envC1`. -/
def anaC1 : ImageAnalysis :=
  match analyzeImageLocal envC1 .en with
  | .ok a => a
  | .error _ => default

/-- Environment for the C4 witness: two faces arriving right-to-left. -/
def envC4 : AnalyzeEnv :=
  { envC1 with
    imageWidth := 600
    faceResult := .ok [
      ⟨⟨500, 0, 50, 60⟩, 30.2, "male", 0.9,
        some [("happy", 0.8), ("sad", 0.2)]⟩,
      ⟨⟨100, 0, 50, 60⟩, 25.6, "female", 0.8,
        some [("neutral", 0.6), ("happy", 0.4)]⟩] }

/-- Snapshot returned by the aggregator on `envC4`. -/
def anaC4 : ImageAnalysis :=
  match analyzeImageLocal envC4 .en with
  | .ok a => a
  | .error _ => default

/-- Environment for the C5 witness: one face with a confident emotion. -/
def envC5 : AnalyzeEnv :=
  { envC1 with
    faceResult := .ok [⟨⟨20, 0, 30, 30⟩, 41.4, "female", 0.95,
      some [("sad", 0.6), ("neutral", 0.4)]⟩] }

/-- Snapshot returned by the aggregator on `envC5`. -/
def anaC5 : ImageAnalysis :=
  match analyzeImageLocal envC5 .pl with
  | .ok a => a
  | .error _ => default

/-- An object or scene provider slot that cannot reject the aggregate:
either unloaded (`none`, degraded to an empty list by the guard) or settled
successfully. -/
def adapterNoThrow {α : Type} : Option (Except String α) → Prop
  | none => True
  | some (.ok _) => True
  | some (.error _) => False

/-- Environment for the C3 counterexample: a loaded object detector whose
`detect` call rejects. -/
def envC3 : AnalyzeEnv :=
  { envC1 with objectModel := some (.error "object detector crashed") }

/-- Environment for the C3 witness: loaded object and scene providers with
successful detections. -/
def envC3w : AnalyzeEnv :=
  { envC1 with
    objectModel := some (.ok [⟨"dog", 0.9⟩])
    sceneModel := some (.ok [⟨"park", 0.7⟩]) }

/-- Environment for the C6 witness. -/
def envC6 : AnalyzeEnv :=
  { envC3w with imageData := [10, 20, 30, 255] }

/-- Record for the C6 witness, still pending analysis. -/
def recC6 : ImageRecord :=
  { recW with id := "rec-c6", status := .pending, analysis := none }

/-- Environment for the C10 witness: OCR recognized a mixed text. -/
def envC10 : AnalyzeEnv :=
  { envC1 with
    ocrRawText := .ok ("INVOICE 2024\n--\ntotal: 45.50".toList) }

/-- Snapshot returned by the aggregator on `envC10`. -/
def anaC10 : ImageAnalysis :=
  match analyzeImageLocal envC10 .en with
  | .ok a => a
  | .error _ => default

/-- C2 counterexample: a metadata result whose EXIF block parsed but which
carried no GPS fix (`location: undefined`, a possible `extractExifData`
success output) passes the merge guard, and merging it into an analysis
that already has a location overwrites that present `location` to absence —
contradicting the claim that the merge never removes a present field. -/
theorem C2_counterexample :
    metaGuard (MetaResult.parsed default none) = true ∧
    locAnalysisC2.location = some ⟨1, 2⟩ ∧
    (mergeAnalysis locAnalysisC2 (MetaResult.parsed default none)).location =
      none :=
  ⟨rfl, rfl, rfl⟩

/-- C2 (amended): the merge is a shallow overwrite of exactly the `exif`
and `location` fields — `exif` is always set to the extracted block and
`location` is set to the extracted GPS value, which removes a previously
present location exactly when the extraction found none — every other field
of the analysis is left unchanged, and an empty extraction result changes
nothing. -/
theorem C2_amended_shallow_merge (a : ImageAnalysis) (e : ExifFields)
    (loc : Option GeoLoc) :
    (mergeAnalysis a (.parsed e loc)).exif = some e ∧
    (mergeAnalysis a (.parsed e loc)).location = loc ∧
    (mergeAnalysis a (.parsed e loc)).objects = a.objects ∧
    (mergeAnalysis a (.parsed e loc)).labels = a.labels ∧
    (mergeAnalysis a (.parsed e loc)).description = a.description ∧
    (mergeAnalysis a (.parsed e loc)).confidenceScore = a.confidenceScore ∧
    (mergeAnalysis a (.parsed e loc)).dominantColors = a.dominantColors ∧
    (mergeAnalysis a (.parsed e loc)).ageEstimate = a.ageEstimate ∧
    (mergeAnalysis a (.parsed e loc)).emotionEstimate = a.emotionEstimate ∧
    (mergeAnalysis a (.parsed e loc)).faces = a.faces ∧
    (mergeAnalysis a (.parsed e loc)).markedUpImageUrl =
      a.markedUpImageUrl ∧
    (mergeAnalysis a (.parsed e loc)).scenery = a.scenery ∧
    (mergeAnalysis a (.parsed e loc)).ocrText = a.ocrText ∧
    mergeAnalysis a .empty = a :=
  ⟨rfl, rfl, rfl, rfl, rfl, rfl, rfl, rfl, rfl, rfl, rfl, rfl, rfl, rfl⟩

/-- Applying the same parsed metadata twice gives the same analysis as
applying it once. -/
lemma mergeAnalysis_idem (a : ImageAnalysis) (m : MetaResult) :
    mergeAnalysis (mergeAnalysis a m) m = mergeAnalysis a m := by
  cases m <;> rfl

/-- Equation form of the background write for an empty extraction result:
the guard fails and nothing happens. -/
lemma applyMetaUpdate_empty (recs : List ImageRecord) (recordId : String) :
    applyMetaUpdate recs recordId .empty = recs := by
  unfold applyMetaUpdate
  rw [if_neg (by simp [metaGuard])]

/-- Equation form of the background write for a parsed extraction result:
the guard passes and the per-record conditional merge runs. -/
lemma applyMetaUpdate_parsed (recs : List ImageRecord) (recordId : String)
    (e : ExifFields) (loc : Option GeoLoc) :
    applyMetaUpdate recs recordId (.parsed e loc) =
      recs.map (fun img =>
        if img.id = recordId then
          match img.analysis with
          | none => img
          | some a =>
            { img with analysis := some (mergeAnalysis a (.parsed e loc)) }
        else img) := by
  unfold applyMetaUpdate
  rw [if_pos (by rfl)]

/-- C7: the background metadata write is idempotent on the record set, and
on a record set in which no record of the given identity still has an
analysis (a cleared set, or a record whose analysis is absent) it changes
no state and raises no error. -/
theorem C7_merge_idempotent_stale_safe (recs : List ImageRecord)
    (recordId : String) (m : MetaResult) :
    applyMetaUpdate (applyMetaUpdate recs recordId m) recordId m =
      applyMetaUpdate recs recordId m ∧
    ((∀ r ∈ recs, r.id = recordId → r.analysis = none) →
      applyMetaUpdate recs recordId m = recs) := by
  cases m with
  | empty => simp [applyMetaUpdate_empty]
  | parsed e loc =>
    constructor
    · rw [applyMetaUpdate_parsed, applyMetaUpdate_parsed, List.map_map]
      refine List.map_congr_left (fun img _ => ?_)
      by_cases hid : img.id = recordId
      · cases ha : img.analysis with
        | none => simp [Function.comp, hid, ha]
        | some a => simp [Function.comp, hid, ha, mergeAnalysis_idem]
      · simp [Function.comp, hid]
    · intro hnone
      rw [applyMetaUpdate_parsed]
      refine (List.map_congr_left (fun img hmem => ?_)).trans (List.map_id' _)
      by_cases hid : img.id = recordId
      · rw [if_pos hid, hnone img hmem hid]
      · rw [if_neg hid]

/-- C7 witness at a concrete record set and metadata result. -/
theorem C7_witness :
    applyMetaUpdate
        (applyMetaUpdate [recW] "r1" (.parsed default none)) "r1"
        (.parsed default none) =
      applyMetaUpdate [recW] "r1" (.parsed default none) ∧
    applyMetaUpdate [recW2] "r1" (.parsed default none) = [recW2] :=
  ⟨(C7_merge_idempotent_stale_safe [recW] "r1" (.parsed default none)).1,
   (C7_merge_idempotent_stale_safe [recW2] "r1" (.parsed default none)).2
     (by intro r hr hid
         simp only [List.mem_singleton] at hr
         subst hr
         simp [recW2, recW] at hid)⟩

/-- Equation form of the foreground pass on an aggregator failure: the two
successive state writes compose into a single per-record update that
changes only status and error message. -/
lemma analyzeSingleRecord_error_eq (recs : List ImageRecord)
    (recordId : String) (errMsg : Option String) (fallback : String) :
    analyzeSingleRecord recs recordId (.error ⟨errMsg⟩) fallback =
      recs.map (fun img =>
        if img.id = recordId then
          { img with status := .error, error := some (jsOrStr errMsg fallback) }
        else img) := by
  unfold analyzeSingleRecord setAnalyzing setError
  dsimp only
  rw [List.map_map]
  refine List.map_congr_left (fun img _ => ?_)
  by_cases hid : img.id = recordId <;> simp [Function.comp, hid]

/-- C8: when the aggregator fails, the matching record transitions to
`error` with the failure message attached verbatim when it is a non-empty
string and with the generic fallback when the failure carries no message,
its analysis field is left exactly as it was before the attempt, and every
other record is untouched. -/
theorem C8_error_transition (recs : List ImageRecord) (recordId : String)
    (errMsg : Option String) (fallback : String) :
    List.Forall₂ (fun r r' =>
        (r.id = recordId →
          r'.status = .error ∧
          r'.analysis = r.analysis ∧
          (∀ s, errMsg = some s → s ≠ "" → r'.error = some s) ∧
          ((errMsg = none ∨ errMsg = some "") → r'.error = some fallback)) ∧
        (r.id ≠ recordId → r' = r))
      recs (analyzeSingleRecord recs recordId (.error ⟨errMsg⟩) fallback) := by
  rw [analyzeSingleRecord_error_eq, List.forall₂_map_right_iff,
    List.forall₂_same]
  intro r _
  by_cases hid : r.id = recordId
  · refine ⟨fun _ => ⟨?_, ?_, ?_, ?_⟩, fun h => absurd hid h⟩
    · simp [hid]
    · simp [hid]
    · intro s hs hne
      simp [hid, hs, jsOrStr, hne]
    · rintro (h | h) <;> simp [hid, h, jsOrStr]
  · exact ⟨fun h => absurd h hid, fun _ => by simp [hid]⟩

/-- C8 witness: a concrete failing aggregator call against a one-record
set. -/
theorem C8_witness :
    List.Forall₂ (fun r r' =>
        (r.id = "r1" →
          r'.status = .error ∧
          r'.analysis = r.analysis ∧
          (∀ s, (some "boom" : Option String) = some s → s ≠ "" →
            r'.error = some s) ∧
          (((some "boom" : Option String) = none ∨
              (some "boom" : Option String) = some "") →
            r'.error = some "Unknown error")) ∧
        (r.id ≠ "r1" → r' = r))
      [recW] (analyzeSingleRecord [recW] "r1" (.error ⟨some "boom"⟩)
        "Unknown error") :=
  C8_error_transition [recW] "r1" (some "boom") "Unknown error"

/-- A successful aggregator call always returns a `buildAnalysis` snapshot
for some settled object and scene lists. -/
lemma analyzeImageLocal_ok (env : AnalyzeEnv) (lang : Lang)
    (a : ImageAnalysis) (h : analyzeImageLocal env lang = Except.ok a) :
    ∃ detections scenePredictions,
      a = buildAnalysis env lang detections scenePredictions := by
  unfold analyzeImageLocal at h
  cases ho : (match env.objectModel with
      | some r => r
      | none => Except.ok ([] : List Detection)) with
  | error e => rw [ho] at h; simp at h
  | ok dets =>
    rw [ho] at h
    cases hs : (match env.sceneModel with
        | some r => r
        | none => Except.ok ([] : List ScenePred)) with
    | error e => rw [hs] at h; simp at h
    | ok preds =>
      rw [hs] at h
      simp only [Except.ok.injEq] at h
      exact ⟨dets, preds, h.symm⟩

/-- The face sequence of a snapshot is the face pipeline applied to the
settled face-analyzer outcome. -/
lemma buildAnalysis_faces (env : AnalyzeEnv) (lang : Lang)
    (detections : List Detection) (scenePredictions : List ScenePred) :
    (buildAnalysis env lang detections scenePredictions).faces =
      processFaces env.imageWidth
        (match env.faceResult with
        | .ok fds => fds
        | .error _ => []) := rfl

/-- Membership in the face pipeline output is membership in the converted
raw detections. -/
lemma mem_processFaces (w : ℚ) (fds : List RawFace) (f : FaceDetail) :
    f ∈ processFaces w fds ↔ ∃ fd ∈ fds, toFaceDetail w fd = f := by
  unfold processFaces
  rw [List.mem_mergeSort, List.mem_map]

/-- Characterization of the position classifier on a positive width:
strictly below 0.33 of the width is `left`, strictly above 0.66 is
`right`, and the boundary value 0.33 exactly is `center`. -/
lemma facePosition_spec (w : ℚ) (b : Box) (hw : 0 < w) :
    (facePosition w b = .left ↔ faceCenterX b < 0.33 * w) ∧
    (facePosition w b = .right ↔ 0.66 * w < faceCenterX b) ∧
    (faceCenterX b = 0.33 * w → facePosition w b = .center) := by
  unfold facePosition
  dsimp only
  split_ifs with h1 h2
  · refine ⟨iff_of_true rfl (by linarith), iff_of_false (by simp) ?_, ?_⟩
    · intro hgt
      nlinarith
    · intro heq
      rw [heq] at h1
      linarith
  · refine ⟨iff_of_false (by simp) ?_, iff_of_true rfl (by linarith), ?_⟩
    · intro hlt
      apply h1
      linarith
    · intro heq
      rw [heq] at h2
      nlinarith
  · refine ⟨iff_of_false (by simp) ?_, iff_of_false (by simp) ?_, fun _ => rfl⟩
    · intro hlt
      apply h1
      linarith
    · intro hgt
      apply h2
      linarith

/-- C1 counterexample: a face box whose center sits exactly at 0.33 of a
width-100 image is classified `center` by the position function, not
`left` as the claim states (the code compares with strict `<`). -/
theorem C1_counterexample :
    faceCenterX ⟨8, 0, 50, 10⟩ = 0.33 * 100 ∧
    facePosition 100 ⟨8, 0, 50, 10⟩ = FacePos.center := by
  constructor
  · norm_num [faceCenterX]
  · norm_num [facePosition, faceCenterX]

/-- C1 (amended): for every face of a returned analysis, the reported
position is the pure function `facePosition` of its box and the normalized
image width — `left` iff the box center is strictly below 0.33 of the
width, `right` iff strictly above 0.66 — and a box center lying exactly at
0.33 of the width is classified `center`, not `left`. -/
theorem C1_amended_position (env : AnalyzeEnv) (lang : Lang)
    (a : ImageAnalysis) (hw : 0 < env.imageWidth)
    (h : analyzeImageLocal env lang = Except.ok a) :
    ∀ f ∈ a.faces,
      f.position = facePosition env.imageWidth f.box ∧
      (f.position = .left ↔ faceCenterX f.box < 0.33 * env.imageWidth) ∧
      (f.position = .right ↔ 0.66 * env.imageWidth < faceCenterX f.box) ∧
      (faceCenterX f.box = 0.33 * env.imageWidth →
        f.position = .center) := by
  obtain ⟨dets, preds, rfl⟩ := analyzeImageLocal_ok env lang a h
  intro f hf
  rw [buildAnalysis_faces] at hf
  obtain ⟨fd, _, rfl⟩ := (mem_processFaces _ _ _).mp hf
  exact ⟨rfl, facePosition_spec env.imageWidth fd.box hw⟩

/-- C1 witness: the amended position property instantiated at `envC1`. -/
theorem C1_witness :
    (0 : ℚ) < envC1.imageWidth ∧
    ∀ f ∈ anaC1.faces,
      f.position = facePosition envC1.imageWidth f.box ∧
      (f.position = .left ↔ faceCenterX f.box < 0.33 * envC1.imageWidth) ∧
      (f.position = .right ↔ 0.66 * envC1.imageWidth < faceCenterX f.box) ∧
      (faceCenterX f.box = 0.33 * envC1.imageWidth →
        f.position = .center) :=
  ⟨by norm_num [envC1],
   C1_amended_position envC1 Lang.en anaC1 (by norm_num [envC1]) rfl⟩

/-- C4: the face sequence of every returned analysis is sorted by
ascending bounding-box x coordinate, for arbitrary input order of the raw
detections. -/
theorem C4_faces_sorted (env : AnalyzeEnv) (lang : Lang)
    (a : ImageAnalysis) (h : analyzeImageLocal env lang = Except.ok a) :
    a.faces.Sorted (fun f g => f.box.x ≤ g.box.x) := by
  obtain ⟨dets, preds, rfl⟩ := analyzeImageLocal_ok env lang a h
  rw [buildAnalysis_faces]
  unfold processFaces
  have hs := @List.sorted_mergeSort FaceDetail
    (fun f g : FaceDetail => decide (f.box.x ≤ g.box.x))
    (fun x y z hxy hyz => by
      simp only [decide_eq_true_eq] at hxy hyz ⊢
      exact le_trans hxy hyz)
    (fun x y => by
      simp only [Bool.or_eq_true, decide_eq_true_eq]
      exact le_total _ _)
    ((match env.faceResult with
      | .ok fds => fds
      | .error _ => []).map (toFaceDetail env.imageWidth))
  exact hs.imp (fun hxy => by simpa using hxy)

/-- C4 witness: the sortedness property instantiated on a concrete
unsorted pair of detections. -/
theorem C4_witness :
    analyzeImageLocal envC4 .en = Except.ok anaC4 ∧
    anaC4.faces.Sorted (fun f g => f.box.x ≤ g.box.x) :=
  ⟨rfl, C4_faces_sorted envC4 .en anaC4 rfl⟩

/-- A string of positive length is not the empty string. -/
lemma ne_empty_of_length_pos {s : String} (h : 0 < s.length) : s ≠ "" := by
  intro he
  subst he
  exact absurd h (by decide)

/-- The age summary of a non-empty face sequence is never empty. -/
lemma legacySummaries_fst_ne (lang : Lang) (f : FaceDetail)
    (fs : List FaceDetail) : (legacySummaries lang (f :: fs)).1 ≠ "" := by
  cases lang with
  | pl =>
    apply ne_empty_of_length_pos
    dsimp only [legacySummaries]
    have h10 : ("Osoba ok. " : String).length = 10 := rfl
    split_ifs <;> simp only [String.length_append] <;> omega
  | en =>
    apply ne_empty_of_length_pos
    dsimp only [legacySummaries]
    have h15 : ("Person approx. " : String).length = 15 := rfl
    split_ifs <;> simp only [String.length_append] <;> omega

/-- The emotion summary of a non-empty face sequence is non-empty exactly
when the first face's top emotion score exceeds 0.1. -/
lemma legacySummaries_snd_iff (lang : Lang) (f : FaceDetail)
    (fs : List FaceDetail) :
    ((legacySummaries lang (f :: fs)).2 ≠ "" ↔ 0.1 < f.emotionScore) := by
  dsimp only [legacySummaries]
  by_cases hsc : (0.1 : ℚ) < f.emotionScore
  · rw [if_pos hsc]
    refine iff_of_true ?_ hsc
    apply ne_empty_of_length_pos
    have h2 : (" (" : String).length = 2 := rfl
    cases lang <;>
      (dsimp only; simp only [String.length_append]; omega)
  · rw [if_neg hsc]
    exact iff_of_false (by simp) hsc

/-- The age estimate of a snapshot is the first legacy summary of its face
sequence. -/
lemma buildAnalysis_ageEstimate (env : AnalyzeEnv) (lang : Lang)
    (detections : List Detection) (scenePredictions : List ScenePred) :
    (buildAnalysis env lang detections scenePredictions).ageEstimate =
      (legacySummaries lang
        (buildAnalysis env lang detections scenePredictions).faces).1 := rfl

/-- The emotion estimate of a snapshot is the second legacy summary of its
face sequence. -/
lemma buildAnalysis_emotionEstimate (env : AnalyzeEnv) (lang : Lang)
    (detections : List Detection) (scenePredictions : List ScenePred) :
    (buildAnalysis env lang detections scenePredictions).emotionEstimate =
      (legacySummaries lang
        (buildAnalysis env lang detections scenePredictions).faces).2 := rfl

/-- C5: the legacy summaries of every returned analysis are a pure
derivation of the face sequence; both are empty when the face sequence is
empty, and when it is non-empty the age estimate is always present while
the emotion estimate is present exactly when the first (leftmost) face's
top emotion score strictly exceeds 0.1. -/
theorem C5_legacy_summary_presence (env : AnalyzeEnv) (lang : Lang)
    (a : ImageAnalysis) (h : analyzeImageLocal env lang = Except.ok a) :
    a.ageEstimate = (legacySummaries lang a.faces).1 ∧
    a.emotionEstimate = (legacySummaries lang a.faces).2 ∧
    (a.faces = [] → a.ageEstimate = "" ∧ a.emotionEstimate = "") ∧
    (∀ f fs, a.faces = f :: fs →
      a.ageEstimate ≠ "" ∧
      (a.emotionEstimate ≠ "" ↔ 0.1 < f.emotionScore)) := by
  obtain ⟨dets, preds, rfl⟩ := analyzeImageLocal_ok env lang a h
  refine ⟨buildAnalysis_ageEstimate env lang dets preds,
    buildAnalysis_emotionEstimate env lang dets preds, ?_, ?_⟩
  · intro hnil
    rw [buildAnalysis_ageEstimate, buildAnalysis_emotionEstimate, hnil]
    exact ⟨rfl, rfl⟩
  · intro f fs hcons
    rw [buildAnalysis_ageEstimate, buildAnalysis_emotionEstimate, hcons]
    exact ⟨legacySummaries_fst_ne lang f fs, legacySummaries_snd_iff lang f fs⟩

/-- C5 witness: the summary-presence property instantiated at `envC5`. -/
theorem C5_witness :
    analyzeImageLocal envC5 .pl = Except.ok anaC5 ∧
    (anaC5.ageEstimate = (legacySummaries .pl anaC5.faces).1 ∧
     anaC5.emotionEstimate = (legacySummaries .pl anaC5.faces).2 ∧
     (anaC5.faces = [] →
       anaC5.ageEstimate = "" ∧ anaC5.emotionEstimate = "") ∧
     (∀ f fs, anaC5.faces = f :: fs →
       anaC5.ageEstimate ≠ "" ∧
       (anaC5.emotionEstimate ≠ "" ↔ 0.1 < f.emotionScore))) :=
  ⟨rfl, C5_legacy_summary_presence envC5 .pl anaC5 rfl⟩

/-- The snapshot depends on the environment only through the normalized
width, the settled face list, the filtered OCR text, the canvas data and
the markup inputs. -/
lemma buildAnalysis_congr (env env' : AnalyzeEnv) (lang : Lang)
    (dets : List Detection) (preds : List ScenePred)
    (hw : env.imageWidth = env'.imageWidth)
    (hf : (match env.faceResult with
            | .ok fds => fds
            | .error _ => ([] : List RawFace)) =
          (match env'.faceResult with
            | .ok fds => fds
            | .error _ => []))
    (ho : performOCR env.ocrRawText = performOCR env'.ocrRawText)
    (hd : env.imageData = env'.imageData)
    (hm : env.markupOk = env'.markupOk)
    (hu : env.markupUrl = env'.markupUrl) :
    buildAnalysis env lang dets preds =
      buildAnalysis env' lang dets preds := by
  unfold buildAnalysis
  rw [hw, hf, ho, hd, hm, hu]

/-- The recognized-text field of a snapshot is the filtered OCR outcome,
absent when that outcome is empty. -/
lemma buildAnalysis_ocrText (env : AnalyzeEnv) (lang : Lang)
    (detections : List Detection) (scenePredictions : List ScenePred) :
    (buildAnalysis env lang detections scenePredictions).ocrText =
      (if performOCR env.ocrRawText = [] then none
       else some (performOCR env.ocrRawText)) := rfl

/-- C3 counterexample: a rejection of the object detector adapter alone
rejects the surrounding `Promise.all`, so the aggregate call fails instead
of degrading that signal to an empty sequence. -/
theorem C3_counterexample :
    analyzeImageLocal envC3 .en = Except.error "object detector crashed" :=
  rfl

/-- C3 (amended): a thrown failure of the face analyzer or of the text
recognizer does not make the aggregate call fail — the face sequence
degrades to empty, the recognized text to absent, and the remaining
signals' results are exactly those of the same run with empty face and OCR
outcomes — provided the object and scene adapters do not throw (their
unavailability degrades to empty lists, but their thrown failures reject
the whole call, per the counterexample). -/
theorem C3_amended_degradation (env : AnalyzeEnv) (lang : Lang)
    (ef eo : String)
    (h1 : adapterNoThrow env.objectModel)
    (h2 : adapterNoThrow env.sceneModel) :
    ∃ a, analyzeImageLocal
        { env with faceResult := .error ef, ocrRawText := .error eo } lang =
        .ok a ∧
      a.faces = [] ∧ a.ocrText = none ∧
      analyzeImageLocal
        { env with faceResult := .ok [], ocrRawText := .ok [] } lang =
        .ok a := by
  obtain ⟨w, om, sm, fr, ot, idata, mok, murl⟩ := env
  dsimp only at h1 h2 ⊢
  rcases om with _ | (e | dets)
  case some.error => exact h1.elim
  all_goals rcases sm with _ | (e2 | preds)
  case none.some.error => exact h2.elim
  case some.ok.some.error => exact h2.elim
  all_goals
    refine ⟨_, rfl, ?_, rfl, ?_⟩
  all_goals
    first
    | (rw [buildAnalysis_faces]; simp [processFaces])
    | exact congrArg Except.ok
        (buildAnalysis_congr _ _ _ _ _ rfl rfl rfl rfl rfl rfl)

/-- C3 witness: the amended degradation property at a concrete
environment. -/
theorem C3_witness :
    adapterNoThrow envC3w.objectModel ∧
    adapterNoThrow envC3w.sceneModel ∧
    ∃ a, analyzeImageLocal
        { envC3w with
          faceResult := .error "face crash"
          ocrRawText := .error "ocr crash" } .en = .ok a ∧
      a.faces = [] ∧ a.ocrText = none ∧
      analyzeImageLocal
        { envC3w with faceResult := .ok [], ocrRawText := .ok [] } .en =
        .ok a :=
  ⟨trivial, trivial,
   C3_amended_degradation envC3w .en "face crash" "ocr crash" trivial
     trivial⟩

/-- Equation form of the foreground pass on aggregator success: the two
successive state writes compose into a single per-record update that
attaches the snapshot, sets `completed` and clears the error. -/
lemma analyzeSingleRecord_ok_eq (recs : List ImageRecord)
    (recordId : String) (ana : ImageAnalysis) (fallback : String) :
    analyzeSingleRecord recs recordId (.ok ana) fallback =
      recs.map (fun img =>
        if img.id = recordId then
          { img with
            status := .completed
            analysis := some ana
            error := none }
        else img) := by
  unfold analyzeSingleRecord setAnalyzing setCompleted
  dsimp only
  rw [List.map_map]
  refine List.map_congr_left (fun img _ => ?_)
  by_cases hid : img.id = recordId <;> simp [Function.comp, hid]

/-- C6: when the face analyzer call rejects, the aggregator still returns
a complete snapshot whose face sequence is empty and whose remaining
fields equal those of the same run with no detected faces, and feeding
that success into the lifecycle controller moves the record to
`completed` (with the snapshot attached), not to `error`. -/
theorem C6_face_failure_completed (env : AnalyzeEnv) (lang : Lang)
    (ef : String) (recs : List ImageRecord) (recordId : String)
    (fallback : String)
    (h1 : adapterNoThrow env.objectModel)
    (h2 : adapterNoThrow env.sceneModel) :
    ∃ a, analyzeImageLocal { env with faceResult := .error ef } lang =
        .ok a ∧
      a.faces = [] ∧
      analyzeImageLocal { env with faceResult := .ok [] } lang = .ok a ∧
      ∀ r ∈ analyzeSingleRecord recs recordId (.ok a) fallback,
        r.id = recordId → r.status = .completed ∧ r.analysis = some a := by
  obtain ⟨w, om, sm, fr, ot, idata, mok, murl⟩ := env
  dsimp only at h1 h2 ⊢
  rcases om with _ | (e | dets)
  case some.error => exact h1.elim
  all_goals rcases sm with _ | (e2 | preds)
  case none.some.error => exact h2.elim
  case some.ok.some.error => exact h2.elim
  all_goals refine ⟨_, rfl, ?_, ?_, ?_⟩
  all_goals
    first
    | (rw [buildAnalysis_faces]; simp [processFaces])
    | exact congrArg Except.ok
        (buildAnalysis_congr _ _ _ _ _ rfl rfl rfl rfl rfl rfl)
    | (intro r hr hid
       rw [analyzeSingleRecord_ok_eq] at hr
       obtain ⟨r₀, hr₀, rfl⟩ := List.mem_map.mp hr
       by_cases h : r₀.id = recordId
       · rw [if_pos h]
         exact ⟨rfl, rfl⟩
       · rw [if_neg h] at hid
         exact absurd hid h)

/-- C6 witness: the face-failure completion property at a concrete
environment and record set. -/
theorem C6_witness :
    adapterNoThrow envC6.objectModel ∧
    adapterNoThrow envC6.sceneModel ∧
    ∃ a, analyzeImageLocal { envC6 with faceResult := .error "face boom" }
        .en = .ok a ∧
      a.faces = [] ∧
      analyzeImageLocal { envC6 with faceResult := .ok [] } .en = .ok a ∧
      ∀ r ∈ analyzeSingleRecord [recC6] "rec-c6" (.ok a) "Unknown error",
        r.id = "rec-c6" → r.status = .completed ∧ r.analysis = some a :=
  ⟨trivial, trivial,
   C6_face_failure_completed envC6 .en "face boom" [recC6] "rec-c6"
     "Unknown error" trivial trivial⟩

/-- Equation of the splitter on a non-empty list. -/
lemma jsSplit_cons (sep c : Char) (rest : List Char) :
    jsSplit sep (c :: rest) =
      match jsSplit sep rest with
      | [] => [[]]
      | g :: gs => if c = sep then [] :: g :: gs else (c :: g) :: gs := rfl

/-- The splitter never returns an empty group list. -/
lemma jsSplit_ne_nil (sep : Char) (l : List Char) : jsSplit sep l ≠ [] := by
  cases l with
  | nil => simp [jsSplit]
  | cons c rest =>
    rw [jsSplit_cons]
    rcases h : jsSplit sep rest with _ | ⟨g, gs⟩
    · simp
    · dsimp only
      by_cases hc : c = sep <;> simp [hc]

/-- Groups produced by the splitter never contain the separator. -/
lemma not_mem_of_mem_jsSplit (sep : Char) :
    ∀ (l x : List Char), x ∈ jsSplit sep l → sep ∉ x
  | [], x, hx => by
    simp [jsSplit] at hx
    simp [hx]
  | c :: rest, x, hx => by
    rw [jsSplit_cons] at hx
    rcases h : jsSplit sep rest with _ | ⟨g, gs⟩
    · exact absurd h (jsSplit_ne_nil sep rest)
    · rw [h] at hx
      dsimp only at hx
      by_cases hc : c = sep
      · rw [if_pos hc] at hx
        rcases List.mem_cons.mp hx with hx | hx
        · simp [hx]
        · exact not_mem_of_mem_jsSplit sep rest x (h ▸ hx)
      · rw [if_neg hc] at hx
        rcases List.mem_cons.mp hx with hx | hx
        · subst hx
          have hg : sep ∉ g :=
            not_mem_of_mem_jsSplit sep rest g
              (h ▸ List.mem_cons_self g gs)
          simp only [List.mem_cons]
          rintro (hsc | hsg)
          · exact hc hsc.symm
          · exact hg hsg
        · exact not_mem_of_mem_jsSplit sep rest x
            (h ▸ List.mem_cons_of_mem g hx)

/-- Splitting a separator-free list returns that list as its only group. -/
lemma jsSplit_of_not_mem (sep : Char) (l : List Char) (h : sep ∉ l) :
    jsSplit sep l = [l] := by
  induction l with
  | nil => rfl
  | cons c rest ih =>
    rw [jsSplit_cons, ih (fun hm => h (List.mem_cons_of_mem c hm))]
    dsimp only
    have hc : ¬(c = sep) := fun hc => h (by rw [hc]; exact List.mem_cons_self _ _)
    rw [if_neg hc]

/-- Splitting a list made of a separator-free prefix, a separator and a
tail peels off the prefix as the first group. -/
lemma jsSplit_append_sep (sep : Char) :
    ∀ (a t : List Char), sep ∉ a →
      jsSplit sep (a ++ sep :: t) = a :: jsSplit sep t := by
  intro a
  induction a with
  | nil =>
    intro t _
    show jsSplit sep (sep :: t) = [] :: jsSplit sep t
    rw [jsSplit_cons]
    rcases h : jsSplit sep t with _ | ⟨g, gs⟩
    · exact absurd h (jsSplit_ne_nil sep t)
    · dsimp only
      rw [if_pos rfl]
  | cons c a' ih =>
    intro t h
    show jsSplit sep (c :: (a' ++ sep :: t)) = (c :: a') :: jsSplit sep t
    rw [jsSplit_cons, ih t (fun hm => h (List.mem_cons_of_mem c hm))]
    dsimp only
    have hc : ¬(c = sep) := fun hc => h (by rw [hc]; exact List.mem_cons_self _ _)
    rw [if_neg hc]

/-- Splitting undoes joining for a non-empty list of separator-free
groups. -/
lemma jsSplit_jsJoin (sep : Char) :
    ∀ (ls : List (List Char)), ls ≠ [] → (∀ l ∈ ls, sep ∉ l) →
      jsSplit sep (jsJoin sep ls) = ls := by
  intro ls
  induction ls with
  | nil => intro h _; exact absurd rfl h
  | cons a ls' ih =>
    intro _ hfree
    cases ls' with
    | nil => exact jsSplit_of_not_mem sep a (hfree a (List.mem_cons_self _ _))
    | cons b ls'' =>
      show jsSplit sep (a ++ sep :: jsJoin sep (b :: ls'')) = a :: b :: ls''
      rw [jsSplit_append_sep sep a _ (hfree a (List.mem_cons_self _ _)),
        ih (by simp) (fun l hl => hfree l (List.mem_cons_of_mem a hl))]

/-- Dropping a while-prefix from a list whose head fails the predicate
changes nothing. -/
lemma dropWhile_eq_self_of_head (p : Char → Bool) (l : List Char)
    (h : ∀ c, l.head? = some c → p c = false) : l.dropWhile p = l := by
  cases l with
  | nil => rfl
  | cons c t => simp [List.dropWhile_cons, h c rfl]

/-- Trimming fixes a list whose first and last characters are not
whitespace. -/
lemma jsTrim_eq_self (l : List Char)
    (hh : ∀ c, l.head? = some c → isJsWs c = false)
    (hl : ∀ c, l.getLast? = some c → isJsWs c = false) : jsTrim l = l := by
  unfold jsTrim
  rw [dropWhile_eq_self_of_head isJsWs l hh,
    dropWhile_eq_self_of_head isJsWs l.reverse
      (fun c hc => hl c (by rwa [List.head?_reverse] at hc)),
    List.reverse_reverse]

/-- Characters of a trimmed list come from the original list. -/
lemma jsTrim_subset (l : List Char) : jsTrim l ⊆ l := by
  intro x hx
  unfold jsTrim at hx
  rw [List.mem_reverse] at hx
  have hx2 := List.dropWhile_subset isJsWs hx
  rw [List.mem_reverse] at hx2
  exact List.dropWhile_subset isJsWs hx2

/-- The head surviving a `dropWhile` fails the predicate. -/
lemma head?_dropWhile (p : Char → Bool) (l : List Char) :
    ∀ c, (l.dropWhile p).head? = some c → p c = false := by
  induction l with
  | nil => intro c hc; simp at hc
  | cons a t ih =>
    intro c hc
    rw [List.dropWhile_cons] at hc
    by_cases hp : p a
    · rw [if_pos hp] at hc
      exact ih c hc
    · rw [if_neg hp] at hc
      simp only [List.head?_cons, Option.some.injEq] at hc
      subst hc
      simpa using hp

/-- A trimmed list never ends in whitespace. -/
lemma jsTrim_getLast? (l : List Char) :
    ∀ c, (jsTrim l).getLast? = some c → isJsWs c = false := by
  intro c hc
  unfold jsTrim at hc
  rw [List.getLast?_reverse] at hc
  exact head?_dropWhile isJsWs _ c hc

/-- A trimmed list never begins with whitespace. -/
lemma jsTrim_head? (l : List Char) :
    ∀ c, (jsTrim l).head? = some c → isJsWs c = false := by
  intro c hc
  unfold jsTrim at hc
  rw [List.head?_reverse] at hc
  obtain ⟨t, ht⟩ :=
    @List.dropWhile_suffix Char ((l.dropWhile isJsWs).reverse) isJsWs
  have hzne : ((l.dropWhile isJsWs).reverse.dropWhile isJsWs) ≠ [] := by
    intro h0
    rw [h0] at hc
    simp at hc
  have hlast : (l.dropWhile isJsWs).reverse.getLast? = some c := by
    rw [← ht, List.getLast?_append_of_ne_nil _ hzne]
    exact hc
  rw [List.getLast?_reverse] at hlast
  exact head?_dropWhile isJsWs l c hlast

/-- Inversion of the per-line OCR filter: a kept line is the trimmed input
line, is non-empty and satisfies both the two-character and the 30%
alphanumeric conditions. -/
lemma ocrKeep_eq_some {line ln : List Char} (h : ocrKeep line = some ln) :
    ln = jsTrim line ∧ ln ≠ [] ∧
    2 ≤ (ln.filter isOcrAlphaNum).length ∧
    (0.3 : ℚ) ≤ ((ln.filter isOcrAlphaNum).length : ℚ) / (ln.length : ℚ) := by
  unfold ocrKeep at h
  dsimp only at h
  split_ifs at h with h1 h2
  · injection h with h'
    subst h'
    exact ⟨rfl, h1, h2.1, h2.2⟩

/-- Joining at least two groups, or one non-empty group, is non-empty. -/
lemma jsJoin_concat_ne_nil (sep : Char) (ms : List (List Char))
    (l : List Char) (hl : l ≠ []) : jsJoin sep (ms ++ [l]) ≠ [] := by
  cases ms with
  | nil => simpa [jsJoin] using hl
  | cons m ms' => cases ms' <;> simp [jsJoin]

/-- The head of a join is the head of its first group when that group is
non-empty. -/
lemma jsJoin_head? (sep : Char) (l : List Char) (ls : List (List Char))
    (h : l ≠ []) : (jsJoin sep (l :: ls)).head? = l.head? := by
  cases ls with
  | nil => rfl
  | cons m ms =>
    show (l ++ sep :: jsJoin sep (m :: ms)).head? = l.head?
    exact List.head?_append_of_ne_nil l h

/-- The last element of a join is the last element of its final group when
that group is non-empty. -/
lemma jsJoin_concat_getLast? (sep : Char) (l : List Char) (hl : l ≠ []) :
    ∀ ls, (jsJoin sep (ls ++ [l])).getLast? = l.getLast? := by
  intro ls
  induction ls with
  | nil => rfl
  | cons m ms ih =>
    have heq : jsJoin sep ((m :: ms) ++ [l]) =
        m ++ sep :: jsJoin sep (ms ++ [l]) := by
      cases ms <;> rfl
    rw [heq, List.getLast?_append_of_ne_nil m (by simp),
      show (sep :: jsJoin sep (ms ++ [l])) =
        [sep] ++ jsJoin sep (ms ++ [l]) from rfl,
      List.getLast?_append_of_ne_nil [sep]
        (jsJoin_concat_ne_nil sep ms l hl), ih]

/-- A non-empty filtered OCR text has at least three characters and every
one of its lines satisfies the per-line filter conditions. -/
lemma performOCR_ok_spec (raw : Except String (List Char))
    (hne : performOCR raw ≠ []) :
    3 ≤ (performOCR raw).length ∧
    ∀ line ∈ jsSplit '\n' (performOCR raw),
      2 ≤ (line.filter isOcrAlphaNum).length ∧
      (0.3 : ℚ) ≤
        ((line.filter isOcrAlphaNum).length : ℚ) / (line.length : ℚ) := by
  cases raw with
  | error e => exact absurd rfl hne
  | ok text =>
    have hkeep : ∀ ln ∈ (jsSplit '\n' text).filterMap ocrKeep,
        ln ≠ [] ∧ ('\n') ∉ ln ∧
        (∀ c, ln.head? = some c → isJsWs c = false) ∧
        (∀ c, ln.getLast? = some c → isJsWs c = false) ∧
        2 ≤ (ln.filter isOcrAlphaNum).length ∧
        (0.3 : ℚ) ≤
          ((ln.filter isOcrAlphaNum).length : ℚ) / (ln.length : ℚ) := by
      intro ln hln
      rw [List.mem_filterMap] at hln
      obtain ⟨line, hline, hk⟩ := hln
      obtain ⟨heq, hne', h2, h3⟩ := ocrKeep_eq_some hk
      subst heq
      refine ⟨hne', ?_, jsTrim_head? line, jsTrim_getLast? line, h2, h3⟩
      intro hmem
      exact not_mem_of_mem_jsSplit '\n' text line hline
        (jsTrim_subset line hmem)
    unfold performOCR at hne ⊢
    dsimp only at hne ⊢
    cases hfe : (jsSplit '\n' text).filterMap ocrKeep with
    | nil =>
      rw [hfe] at hne
      simp [jsJoin, jsTrim] at hne
    | cons l0 ls0 =>
      rw [hfe] at hne hkeep
      have hl0 := hkeep l0 (List.mem_cons_self l0 ls0)
      obtain ⟨L, last, hcat⟩ :=
        (List.eq_nil_or_concat (l0 :: ls0)).resolve_left (by simp)
      have hlastmem : last ∈ l0 :: ls0 := by
        rw [hcat, List.concat_eq_append]
        exact List.mem_append_right L (List.mem_cons_self last [])
      have hlast := hkeep last hlastmem
      have htrim : jsTrim (jsJoin '\n' (l0 :: ls0)) =
          jsJoin '\n' (l0 :: ls0) := by
        apply jsTrim_eq_self
        · intro c hc
          rw [jsJoin_head? '\n' l0 ls0 hl0.1] at hc
          rcases l0 with _ | ⟨c0, t0⟩
          · exact absurd rfl hl0.1
          · exact hl0.2.2.1 c hc
        · intro c hc
          rw [hcat, List.concat_eq_append,
            jsJoin_concat_getLast? '\n' last hlast.1 L] at hc
          exact hlast.2.2.2.1 c hc
      rw [htrim] at hne ⊢
      by_cases hlen : 3 ≤ (jsJoin '\n' (l0 :: ls0)).length
      · rw [if_pos hlen]
        refine ⟨hlen, ?_⟩
        intro line hline
        rw [jsSplit_jsJoin '\n' (l0 :: ls0) (by simp)
          (fun l hl => (hkeep l hl).2.1)] at hline
        exact ⟨(hkeep line hline).2.2.2.2.1, (hkeep line hline).2.2.2.2.2⟩
      · rw [if_neg hlen] at hne
        exact absurd rfl hne

/-- C10: the recognized-text field of a returned analysis is never the
empty string — it is absent on OCR failure, and when present it is a
non-empty filtered text of at least three characters in which every line
has at least two alphanumeric characters making up at least 30% of the
line. -/
theorem C10_ocr_text_filtered (env : AnalyzeEnv) (lang : Lang)
    (a : ImageAnalysis) (h : analyzeImageLocal env lang = Except.ok a) :
    (∀ e, env.ocrRawText = .error e → a.ocrText = none) ∧
    ∀ s, a.ocrText = some s →
      s ≠ [] ∧ 3 ≤ s.length ∧
      ∀ line ∈ jsSplit '\n' s,
        2 ≤ (line.filter isOcrAlphaNum).length ∧
        (0.3 : ℚ) ≤
          ((line.filter isOcrAlphaNum).length : ℚ) / (line.length : ℚ) := by
  obtain ⟨dets, preds, rfl⟩ := analyzeImageLocal_ok env lang a h
  constructor
  · intro e he
    rw [buildAnalysis_ocrText, he]
    simp [performOCR]
  · intro s hsome
    rw [buildAnalysis_ocrText] at hsome
    by_cases hif : performOCR env.ocrRawText = []
    · rw [if_pos hif] at hsome
      exact absurd hsome (by simp)
    · rw [if_neg hif] at hsome
      injection hsome with hsome
      subst hsome
      obtain ⟨h3, hlines⟩ := performOCR_ok_spec env.ocrRawText hif
      exact ⟨hif, h3, hlines⟩

/-- C10 witness: the recognized-text property instantiated at `envC10`. -/
theorem C10_witness :
    analyzeImageLocal envC10 .en = Except.ok anaC10 ∧
    ((∀ e, envC10.ocrRawText = .error e → anaC10.ocrText = none) ∧
     ∀ s, anaC10.ocrText = some s →
       s ≠ [] ∧ 3 ≤ s.length ∧
       ∀ line ∈ jsSplit '\n' s,
         2 ≤ (line.filter isOcrAlphaNum).length ∧
         (0.3 : ℚ) ≤
           ((line.filter isOcrAlphaNum).length : ℚ) / (line.length : ℚ)) :=
  ⟨rfl, C10_ocr_text_filtered envC10 .en anaC10 rfl⟩

/-- Digits produced by the hex formatter are hex digit characters. -/
lemma isHexDigit_hexDigitChar (d : ℕ) (hd : d < 16) :
    isHexDigit (hexDigitChar d) = true := by
  interval_cases d <;> decide

/-- Every character of a base-16 expansion is a hex digit. -/
lemma natToHexAux_all_hex (n : ℕ) :
    ∀ c ∈ natToHexAux n, isHexDigit c = true := by
  induction n using Nat.strong_induction_on with
  | _ n ih =>
    cases n with
    | zero => intro c hc; simp [natToHexAux] at hc
    | succ m =>
      intro c hc
      rw [natToHexAux] at hc
      rcases List.mem_append.mp hc with hc | hc
      · exact ih ((m + 1) / 16)
          (Nat.div_lt_self (Nat.succ_pos m) (by norm_num)) c hc
      · rw [List.mem_singleton] at hc
        subst hc
        exact isHexDigit_hexDigitChar _ (Nat.mod_lt _ (by norm_num))

/-- Length of the base-16 expansion of a number between two powers. -/
lemma natToHexAux_length :
    ∀ (k n : ℕ), 16 ^ k ≤ n → n < 16 ^ (k + 1) →
      (natToHexAux n).length = k + 1 := by
  intro k
  induction k with
  | zero =>
    intro n h1 h2
    cases n with
    | zero => simp at h1
    | succ m =>
      rw [natToHexAux, Nat.div_eq_of_lt (by simpa using h2)]
      simp [natToHexAux]
  | succ k ih =>
    intro n h1 h2
    cases n with
    | zero => simp at h1
    | succ m =>
      rw [natToHexAux, List.length_append]
      have hlo : 16 ^ k ≤ (m + 1) / 16 :=
        (Nat.le_div_iff_mul_le (by norm_num)).mpr
          (by rw [← pow_succ]; exact h1)
      have hhi : (m + 1) / 16 < 16 ^ (k + 1) :=
        (Nat.div_lt_iff_lt_mul (by norm_num)).mpr
          (by rw [← pow_succ]; exact h2)
      rw [ih _ hlo hhi]
      simp

/-- The hex color literal of byte components is a valid hex color. -/
lemma hexColor_valid (r g b : ℕ) (hr : r < 256) (hg : g < 256)
    (hb : b < 256) : isValidHexColor (hexColor r g b) = true := by
  have hp6 : (16 : ℕ) ^ 6 = 16777216 := by norm_num
  have hp7 : (16 : ℕ) ^ 7 = 268435456 := by norm_num
  set n := 2 ^ 24 + (r * 2 ^ 16 + (g * 2 ^ 8 + b)) with hn
  have h1 : 16 ^ 6 ≤ n := by rw [hp6, hn]; omega
  have h2 : n < 16 ^ 7 := by rw [hp7, hn]; omega
  have hne : n ≠ 0 := by omega
  have hlen : (natToHexAux n).length = 7 := natToHexAux_length 6 n h1 h2
  unfold hexColor
  rw [show natToHex n = natToHexAux n from by rw [natToHex, if_neg hne]]
  have hdata : ("#" ++ String.mk ((natToHexAux n).drop 1)).toList =
      '#' :: (natToHexAux n).drop 1 := by
    simp [String.toList, String.data_append]
  unfold isValidHexColor
  rw [hdata]
  show (((natToHexAux n).drop 1).length == 6 &&
    ((natToHexAux n).drop 1).all isHexDigit) = true
  rw [Bool.and_eq_true, List.all_eq_true]
  constructor
  · rw [List.length_drop, hlen]
    decide
  · intro c hc
    exact natToHexAux_all_hex n c (List.drop_subset 1 _ hc)

/-- Components of sampled pixels are bytes when the canvas data is. -/
lemma mem_samplePixels :
    ∀ (data : List ℕ), (∀ x ∈ data, x < 256) →
      ∀ p ∈ samplePixels data, p.1 < 256 ∧ p.2.1 < 256 ∧ p.2.2 < 256 := by
  intro data
  induction data using samplePixels.induct with
  | case1 =>
    intro _ p hp
    simp [samplePixels] at hp
  | case2 r =>
    intro h256 p hp
    simp only [samplePixels, List.mem_singleton] at hp
    subst hp
    exact ⟨h256 r (by simp), by norm_num, by norm_num⟩
  | case3 r g =>
    intro h256 p hp
    simp only [samplePixels, List.mem_singleton] at hp
    subst hp
    exact ⟨h256 r (by simp), h256 g (by simp), by norm_num⟩
  | case4 r g b rest ih =>
    intro h256 p hp
    rw [show samplePixels (r :: g :: b :: rest) =
        (r, g, b) :: samplePixels ((r :: g :: b :: rest).drop 4000) from by
      rw [samplePixels]] at hp
    rcases List.mem_cons.mp hp with rfl | hp
    · exact ⟨h256 r (by simp), h256 g (by simp), h256 b (by simp)⟩
    · exact ih (fun x hx => h256 x (List.drop_subset _ _ hx)) p hp

/-- Every sampled hex string is a valid hex color. -/
lemma sampleHexes_valid (data : List ℕ) (h256 : ∀ x ∈ data, x < 256) :
    ∀ s ∈ sampleHexes data, isValidHexColor s = true := by
  intro s hs
  rw [sampleHexes, List.mem_map] at hs
  obtain ⟨p, hp, rfl⟩ := hs
  obtain ⟨h1, h2, h3⟩ := mem_samplePixels data h256 p hp
  exact hexColor_valid _ _ _ h1 h2 h3

/-- One tally step adds one to the frequency of the inserted key and
leaves every other frequency unchanged. -/
lemma colorFreq_insertCount (acc : List (String × ℕ)) (h s : String) :
    colorFreq (insertCount acc h) s =
      colorFreq acc s + (if s = h then 1 else 0) := by
  unfold insertCount colorFreq
  by_cases hany : acc.any (fun p => p.1 == h)
  · rw [if_pos hany, List.find?_map]
    have hcomp : ((fun p : String × ℕ => p.1 == s) ∘
        (fun p : String × ℕ => if p.1 == h then (p.1, p.2 + 1) else p)) =
        (fun p : String × ℕ => p.1 == s) := by
      funext p
      by_cases hph : p.1 = h <;> simp [hph]
    rw [hcomp]
    cases hf : acc.find? (fun p => p.1 == s) with
    | none =>
      rw [List.find?_eq_none] at hf
      by_cases hsh : s = h
      · subst hsh
        rw [List.any_eq_true] at hany
        obtain ⟨p, hp, hph⟩ := hany
        exact absurd hph (hf p hp)
      · simp [hsh]
    | some p =>
      have hps : p.1 = s := by simpa using List.find?_some hf
      by_cases hsh : s = h
      · subst hsh
        simp [hps]
      · have hph : ¬(p.1 = h) := by rw [hps]; exact hsh
        simp [hph, hsh]
  · rw [if_neg hany, List.find?_append]
    cases hf : acc.find? (fun p => p.1 == s) with
    | none =>
      by_cases hsh : s = h
      · subst hsh
        simp [Option.or]
      · have hhs : ¬((h == s) = true) := by
          simp only [beq_iff_eq]
          exact fun he => hsh he.symm
        simp [Option.or, List.find?, hhs, hsh]
    | some p =>
      by_cases hsh : s = h
      · subst hsh
        have hps : p.1 = s := by simpa using List.find?_some hf
        have hp := List.mem_of_find?_eq_some hf
        exfalso
        exact hany (List.any_eq_true.mpr ⟨p, hp, by simp [hps]⟩)
      · simp [Option.or, hsh]

/-- The tally's frequency is the occurrence count in the sample. -/
lemma colorFreq_countColors (hexes : List String) (s : String) :
    colorFreq (countColors hexes) s = hexes.count s := by
  suffices h : ∀ (l : List String) (acc : List (String × ℕ)),
      colorFreq (l.foldl insertCount acc) s = colorFreq acc s + l.count s by
    simpa [countColors, colorFreq] using h hexes []
  intro l
  induction l with
  | nil => intro acc; simp
  | cons a t ih =>
    intro acc
    rw [List.foldl_cons, ih, colorFreq_insertCount, List.count_cons]
    by_cases hsa : s = a
    · subst hsa
      simp
      omega
    · have has : ¬((a == s) = true) := by
        simp only [beq_iff_eq]
        exact fun he => hsa he.symm
      simp [hsa, has]

/-- One tally step either keeps the key list or appends the new key. -/
lemma insertCount_keys (acc : List (String × ℕ)) (h : String) :
    (insertCount acc h).map Prod.fst =
      if acc.any (fun p => p.1 == h) then acc.map Prod.fst
      else acc.map Prod.fst ++ [h] := by
  unfold insertCount
  split_ifs with hany
  · rw [List.map_map]
    refine List.map_congr_left (fun p _ => ?_)
    by_cases hph : p.1 = h <;> simp [hph]
  · simp

/-- Tally keys are distinct. -/
lemma countColors_keys_nodup (hexes : List String) :
    ((countColors hexes).map Prod.fst).Nodup := by
  suffices h : ∀ (l : List String) (acc : List (String × ℕ)),
      (acc.map Prod.fst).Nodup →
      ((l.foldl insertCount acc).map Prod.fst).Nodup by
    exact h hexes [] (by simp)
  intro l
  induction l with
  | nil => intro acc hacc; exact hacc
  | cons a t ih =>
    intro acc hacc
    rw [List.foldl_cons]
    apply ih
    rw [insertCount_keys]
    split_ifs with hany
    · exact hacc
    · have hnotin : a ∉ acc.map Prod.fst := by
        intro hmem
        rw [List.mem_map] at hmem
        obtain ⟨p, hp, hpa⟩ := hmem
        exact hany (List.any_eq_true.mpr ⟨p, hp, by simp [hpa]⟩)
      simp [List.nodup_append, hacc, hnotin]

/-- Every tally key occurs in the sample. -/
lemma countColors_key_mem (hexes : List String) :
    ∀ p ∈ countColors hexes, p.1 ∈ hexes := by
  suffices h : ∀ (l : List String) (acc : List (String × ℕ)),
      ∀ p ∈ l.foldl insertCount acc,
        p.1 ∈ acc.map Prod.fst ∨ p.1 ∈ l by
    intro p hp
    rcases h hexes [] p hp with h0 | h1
    · simp at h0
    · exact h1
  intro l
  induction l with
  | nil => intro acc p hp; exact Or.inl (List.mem_map_of_mem Prod.fst hp)
  | cons a t ih =>
    intro acc p hp
    rw [List.foldl_cons] at hp
    rcases ih (insertCount acc a) p hp with h0 | h1
    · rw [insertCount_keys] at h0
      split_ifs at h0 with hany
      · exact Or.inl h0
      · rcases List.mem_append.mp h0 with h0 | h0
        · exact Or.inl h0
        · rw [List.mem_singleton] at h0
          exact Or.inr (by rw [h0]; exact List.mem_cons_self a t)
    · exact Or.inr (List.mem_cons_of_mem a h1)

/-- Every sampled hex string owns a tally entry. -/
lemma countColors_mem_key (hexes : List String) (s : String)
    (hs : s ∈ hexes) : ∃ p ∈ countColors hexes, p.1 = s := by
  have hc := colorFreq_countColors hexes s
  have hpos : 0 < hexes.count s := List.count_pos_iff.mpr hs
  rw [← hc] at hpos
  unfold colorFreq at hpos
  cases hf : (countColors hexes).find? (fun p => p.1 == s) with
  | none => rw [hf] at hpos; simp at hpos
  | some p =>
    exact ⟨p, List.mem_of_find?_eq_some hf,
      by simpa using List.find?_some hf⟩

/-- With distinct keys, looking up an entry's own key finds the entry. -/
lemma find?_key_self {cnts : List (String × ℕ)}
    (hnd : (cnts.map Prod.fst).Nodup) {p : String × ℕ} (hp : p ∈ cnts) :
    cnts.find? (fun q => q.1 == p.1) = some p := by
  induction cnts with
  | nil => simp at hp
  | cons q t ih =>
    rw [List.map_cons, List.nodup_cons] at hnd
    rcases List.mem_cons.mp hp with rfl | hpt
    · rw [List.find?_cons_of_pos _ (by simp)]
    · rw [List.find?_cons_of_neg, ih hnd.2 hpt]
      simp only [beq_iff_eq]
      intro hqp
      exact hnd.1 (hqp ▸ List.mem_map_of_mem Prod.fst hpt)

/-- Every tally entry's value is the sample count of its key. -/
lemma countColors_entry_count (hexes : List String) :
    ∀ p ∈ countColors hexes, p.2 = hexes.count p.1 := by
  intro p hp
  have h1 := colorFreq_countColors hexes p.1
  rw [colorFreq, find?_key_self (countColors_keys_nodup hexes) hp] at h1
  exact h1

/-- Two distinct members of a list appear as a pair sublist in one of the
two orders. -/
lemma pair_sublist_total {α : Type} {l : List α} {a b : α}
    (ha : a ∈ l) (hb : b ∈ l) (hne : a ≠ b) :
    [a, b].Sublist l ∨ [b, a].Sublist l := by
  induction l with
  | nil => simp at ha
  | cons r t ih =>
    rcases List.mem_cons.mp ha with rfl | hat
    · have hbt : b ∈ t := by
        rcases List.mem_cons.mp hb with rfl | hbt
        · exact absurd rfl hne
        · exact hbt
      exact Or.inl ((List.singleton_sublist.mpr hbt).cons₂ a)
    · rcases List.mem_cons.mp hb with rfl | hbt
      · exact Or.inr ((List.singleton_sublist.mpr hat).cons₂ b)
      · rcases ih hat hbt with h | h
        · exact Or.inl (h.cons r)
        · exact Or.inr (h.cons r)

/-- In a duplicate-free list, a pair sublist orders the first occurrence
indices. -/
lemma indexOf_lt_of_pair_sublist {α : Type} [BEq α] [LawfulBEq α]
    {l : List α} (hnd : l.Nodup) {a b : α} (h : [a, b].Sublist l)
    (hne : a ≠ b) : l.indexOf a < l.indexOf b := by
  induction l with
  | nil => simp at h
  | cons r t ih =>
    rw [List.nodup_cons] at hnd
    cases h with
    | cons _ h =>
      have hat : a ∈ t := h.subset (List.mem_cons_self a [b])
      have hbt : b ∈ t := h.subset (List.mem_cons_of_mem a (List.mem_cons_self b []))
      have hra : ¬((r == a) = true) := by
        simp only [beq_iff_eq]
        rintro rfl
        exact hnd.1 hat
      have hrb : ¬((r == b) = true) := by
        simp only [beq_iff_eq]
        rintro rfl
        exact hnd.1 hbt
      rw [List.indexOf_cons, List.indexOf_cons]
      simp only [hra, hrb, cond_false]
      exact Nat.succ_lt_succ (ih hnd.2 h)
    | cons₂ _ h =>
      have hab : ¬((a == b) = true) := by
        simp only [beq_iff_eq]
        exact hne
      rw [List.indexOf_cons, List.indexOf_cons]
      simp [hab]

/-- In a duplicate-free list the two pair orders cannot both occur for
distinct elements. -/
lemma pair_sublist_asymm {α : Type} [BEq α] [LawfulBEq α] {l : List α}
    (hnd : l.Nodup) {a b : α} (h1 : [a, b].Sublist l)
    (h2 : [b, a].Sublist l) : a = b := by
  by_contra hne
  have i1 := indexOf_lt_of_pair_sublist hnd h1 hne
  have i2 := indexOf_lt_of_pair_sublist hnd h2 (Ne.symm hne)
  omega

/-- Converse direction: index order of distinct members of a
duplicate-free list yields the pair sublist. -/
lemma pair_sublist_of_indexOf_lt {α : Type} [BEq α] [LawfulBEq α]
    {l : List α} (hnd : l.Nodup) {a b : α} (ha : a ∈ l) (hb : b ∈ l)
    (hne : a ≠ b) (hlt : l.indexOf a < l.indexOf b) : [a, b].Sublist l := by
  rcases pair_sublist_total ha hb hne with h | h
  · exact h
  · have := indexOf_lt_of_pair_sublist hnd h (Ne.symm hne)
    omega

/-- The first occurrence index is stable under appending, for present
elements. -/
lemma indexOf_append_left {α : Type} [BEq α] [LawfulBEq α] {l : List α}
    (l' : List α) {a : α} (ha : a ∈ l) :
    (l ++ l').indexOf a = l.indexOf a := by
  induction l with
  | nil => simp at ha
  | cons r t ih =>
    rw [List.cons_append, List.indexOf_cons, List.indexOf_cons]
    by_cases hra : (r == a) = true
    · simp [hra]
    · simp only [hra, cond_false]
      have hat : a ∈ t := by
        rcases List.mem_cons.mp ha with rfl | h
        · simp at hra
        · exact h
      rw [ih hat]

/-- The first occurrence index of a fresh element appended at the end is
the former length. -/
lemma indexOf_append_self {α : Type} [BEq α] [LawfulBEq α] {l : List α}
    {a : α} (ha : a ∉ l) : (l ++ [a]).indexOf a = l.length := by
  induction l with
  | nil => simp [List.indexOf_cons]
  | cons r t ih =>
    rw [List.cons_append, List.indexOf_cons]
    have hra : ¬((r == a) = true) := by
      simp only [beq_iff_eq]
      rintro rfl
      exact ha (List.mem_cons_self r t)
    simp only [hra, cond_false, List.length_cons]
    rw [ih (fun h => ha (List.mem_cons_of_mem r h))]

/-- Tally entries are listed in first-encounter order: a pair sublist of
the tally orders the keys' first occurrence indices in the sample. -/
lemma countColors_pair_indexOf (hexes : List String) :
    ∀ p q : String × ℕ, [p, q].Sublist (countColors hexes) →
      hexes.indexOf p.1 < hexes.indexOf q.1 := by
  induction hexes using List.reverseRecOn with
  | nil =>
    intro p q hpq
    rw [show countColors [] = [] from rfl] at hpq
    simp at hpq
  | append_singleton l h ih =>
    intro p q hpq
    rw [show countColors (l ++ [h]) = insertCount (countColors l) h from by
      rw [countColors, countColors, List.foldl_concat]] at hpq
    unfold insertCount at hpq
    split_ifs at hpq with hany
    · rw [List.sublist_map_iff] at hpq
      obtain ⟨l', hl', heq⟩ := hpq
      match l', heq with
      | [p₀, q₀], heq =>
        simp only [List.map_cons, List.map_nil, List.cons.injEq,
          and_true] at heq
        obtain ⟨hp, hq⟩ := heq
        have hkp : p.1 = p₀.1 := by
          rw [hp]; by_cases h0 : p₀.1 = h <;> simp [h0]
        have hkq : q.1 = q₀.1 := by
          rw [hq]; by_cases h0 : q₀.1 = h <;> simp [h0]
        have hp₀ : p₀ ∈ countColors l := hl'.subset (List.mem_cons_self _ _)
        have hq₀ : q₀ ∈ countColors l :=
          hl'.subset (List.mem_cons_of_mem _ (List.mem_cons_self _ _))
        rw [hkp, hkq,
          indexOf_append_left [h] (countColors_key_mem l p₀ hp₀),
          indexOf_append_left [h] (countColors_key_mem l q₀ hq₀)]
        exact ih p₀ q₀ hl'
    · rw [List.sublist_append_iff] at hpq
      obtain ⟨l₁, l₂, heq, h1, h2⟩ := hpq
      have hhl : h ∉ l := by
        intro hmem
        obtain ⟨p', hp', hk⟩ := countColors_mem_key l h hmem
        exact hany (List.any_eq_true.mpr ⟨p', hp', by simp [hk]⟩)
      match l₁, l₂, heq with
      | [], _, heq =>
        rw [List.nil_append] at heq
        subst heq
        have := h2.length_le
        simp at this
      | [p'], l₂, heq =>
        simp only [List.cons_append, List.nil_append,
          List.cons.injEq] at heq
        obtain ⟨rfl, heq2⟩ := heq
        have hq : q ∈ [(h, 1)] := (heq2 ▸ h2).subset (List.mem_cons_self _ _)
        rw [List.mem_singleton] at hq
        subst hq
        have hpmem : p ∈ countColors l := h1.subset (List.mem_cons_self _ _)
        have hpk : p.1 ∈ l := countColors_key_mem l p hpmem
        rw [indexOf_append_left [h] hpk]
        rw [show ((h, 1) : String × ℕ).1 = h from rfl,
          indexOf_append_self hhl]
        exact List.indexOf_lt_length.mpr hpk
      | p' :: q' :: l₁, l₂, heq =>
        have hlen := congrArg List.length heq
        simp only [List.length_cons, List.length_append] at hlen
        have hl1 : l₁ = [] := by
          cases l₁ with
          | nil => rfl
          | cons x xs => exfalso; simp at hlen; omega
        subst hl1
        have hl₂ : l₂ = [] := by
          cases l₂ with
          | nil => rfl
          | cons x xs => exfalso; simp at hlen
        subst hl₂
        rw [List.append_nil] at heq
        simp only [List.cons.injEq, and_true] at heq
        obtain ⟨rfl, rfl⟩ := heq
        rw [indexOf_append_left [h] (countColors_key_mem l p
            (h1.subset (List.mem_cons_self _ _))),
          indexOf_append_left [h] (countColors_key_mem l q
            (h1.subset (List.mem_cons_of_mem _ (List.mem_cons_self _ _))))]
        exact ih p q h1

/-- With distinct keys, entries are determined by their keys. -/
lemma key_inj {l : List (String × ℕ)} (hnd : (l.map Prod.fst).Nodup)
    {p p' : String × ℕ} (hp : p ∈ l) (hp' : p' ∈ l) (hk : p.1 = p'.1) :
    p = p' := by
  induction l with
  | nil => simp at hp
  | cons q t ih =>
    rw [List.map_cons, List.nodup_cons] at hnd
    rcases List.mem_cons.mp hp with rfl | hpt
    · rcases List.mem_cons.mp hp' with rfl | hp't
      · rfl
      · exact absurd (hk ▸ List.mem_map_of_mem Prod.fst hp't) hnd.1
    · rcases List.mem_cons.mp hp' with rfl | hp't
      · exact absurd (hk ▸ List.mem_map_of_mem Prod.fst hpt) hnd.1
      · exact ih hnd.2 hpt hp't

/-- The first occurrence index of an element absent from the first part of
an append is the first part's length plus its index in the second part. -/
lemma indexOf_append_right {α : Type} [BEq α] [LawfulBEq α] {l₁ : List α}
    (l₂ : List α) {a : α} (ha : a ∉ l₁) :
    (l₁ ++ l₂).indexOf a = l₁.length + l₂.indexOf a := by
  induction l₁ with
  | nil => simp
  | cons r t ih =>
    rw [List.cons_append, List.indexOf_cons]
    have hra : ¬((r == a) = true) := by
      simp only [beq_iff_eq]
      rintro rfl
      exact ha (List.mem_cons_self r t)
    simp only [hra, cond_false, List.length_cons]
    rw [ih (fun h => ha (List.mem_cons_of_mem r h))]
    omega

/-- The first occurrence index of a member is within bounds. -/
lemma indexOf_lt_length_of_mem {α : Type} [BEq α] [LawfulBEq α]
    {l : List α} {a : α} (h : a ∈ l) : l.indexOf a < l.length := by
  induction l with
  | nil => simp at h
  | cons r t ih =>
    rw [List.indexOf_cons]
    by_cases hra : (r == a) = true
    · simp [hra]
    · simp only [hra, cond_false, List.length_cons]
      have hat : a ∈ t := by
        rcases List.mem_cons.mp h with rfl | hm
        · simp at hra
        · exact hm
      exact Nat.succ_lt_succ (ih hat)

/-- The index within a prefix equals the index in the whole list, for
elements of the prefix. -/
lemma indexOf_take {α : Type} [BEq α] [LawfulBEq α] {l : List α} {n : ℕ}
    {a : α} (ha : a ∈ l.take n) : l.indexOf a = (l.take n).indexOf a := by
  conv_lhs => rw [← List.take_append_drop n l]
  exact indexOf_append_left (l.drop n) ha

/-- C9: the dominant-color list has at most three entries, every entry is
a valid hex color string, entries are ordered by descending sampled
frequency with the highest-frequency color first (its frequency bounds
every sampled color's), and frequency ties — both between two kept colors
and between a kept and a dropped color — are broken in favor of the hex
value first encountered in the fixed-stride sample. -/
theorem C9_dominant_colors (data : List ℕ) (h256 : ∀ x ∈ data, x < 256) :
    (getDominantColors data).length ≤ 3 ∧
    (∀ s ∈ getDominantColors data, isValidHexColor s = true) ∧
    (getDominantColors data).Pairwise
      (fun s t => (sampleHexes data).count t ≤ (sampleHexes data).count s) ∧
    (∀ s, (getDominantColors data).head? = some s →
      ∀ t ∈ sampleHexes data,
        (sampleHexes data).count t ≤ (sampleHexes data).count s) ∧
    (∀ s ∈ getDominantColors data, ∀ t ∈ getDominantColors data, s ≠ t →
      (sampleHexes data).count s = (sampleHexes data).count t →
      ((getDominantColors data).indexOf s < (getDominantColors data).indexOf t ↔
        (sampleHexes data).indexOf s < (sampleHexes data).indexOf t)) ∧
    (∀ s ∈ getDominantColors data, ∀ t ∈ sampleHexes data,
      t ∉ getDominantColors data →
      (sampleHexes data).count s = (sampleHexes data).count t →
      (sampleHexes data).indexOf s < (sampleHexes data).indexOf t) := by
  set hexes := sampleHexes data with hhexes
  set cnts := countColors hexes with hcnts
  set desc : (String × ℕ) → (String × ℕ) → Bool :=
    fun a b => decide (b.2 ≤ a.2) with hdesc
  set sorted := cnts.mergeSort desc with hsorted_def
  have hout : getDominantColors data = (sorted.take 3).map Prod.fst := rfl
  have htrans : ∀ a b c : String × ℕ,
      desc a b = true → desc b c = true → desc a c = true := by
    intro a b c hab hbc
    simp only [hdesc, decide_eq_true_eq] at hab hbc ⊢
    omega
  have htotal : ∀ a b : String × ℕ, (desc a b || desc b a) = true := by
    intro a b
    simp only [hdesc, Bool.or_eq_true, decide_eq_true_eq]
    omega
  have hperm : sorted.Perm cnts := List.mergeSort_perm cnts desc
  have hsorted : sorted.Pairwise (fun a b => desc a b = true) :=
    List.sorted_mergeSort htrans htotal cnts
  have hkeys_nodup_cnts : (cnts.map Prod.fst).Nodup :=
    countColors_keys_nodup hexes
  have hkeys_nodup : (sorted.map Prod.fst).Nodup :=
    (hperm.map Prod.fst).nodup_iff.mpr hkeys_nodup_cnts
  have hnodup_sorted : sorted.Nodup := List.Nodup.of_map Prod.fst hkeys_nodup
  have hmem_cnts : ∀ p : String × ℕ, p ∈ sorted ↔ p ∈ cnts :=
    fun p => hperm.mem_iff
  have hentry : ∀ p ∈ sorted, p.2 = hexes.count p.1 := fun p hp =>
    countColors_entry_count hexes p ((hmem_cnts p).mp hp)
  have hkeys_nodup_take : ((sorted.take 3).map Prod.fst).Nodup :=
    List.Nodup.sublist ((List.take_sublist 3 sorted).map Prod.fst)
      hkeys_nodup
  have htake3_nodup : (sorted.take 3).Nodup :=
    List.Nodup.sublist (List.take_sublist 3 sorted) hnodup_sorted
  have hout_nodup : (getDominantColors data).Nodup :=
    hout ▸ hkeys_nodup_take
  have hmem_out : ∀ s, s ∈ getDominantColors data ↔
      ∃ p ∈ sorted.take 3, p.1 = s := by
    intro s
    rw [hout, List.mem_map]
  refine ⟨?_, ?_, ?_, ?_, ?_, ?_⟩
  · rw [hout, List.length_map]
    exact List.length_take_le 3 sorted
  · intro s hs
    obtain ⟨p, hp3, rfl⟩ := (hmem_out s).mp hs
    exact sampleHexes_valid data h256 p.1
      (countColors_key_mem hexes p
        ((hmem_cnts p).mp (List.take_subset 3 sorted hp3)))
  · rw [hout, List.pairwise_map]
    have h3 : (sorted.take 3).Pairwise (fun a b => desc a b = true) :=
      List.Pairwise.sublist (List.take_sublist 3 sorted) hsorted
    refine List.Pairwise.imp_of_mem ?_ h3
    intro p q hp hq hpq
    have he1 := hentry p (List.take_subset 3 sorted hp)
    have he2 := hentry q (List.take_subset 3 sorted hq)
    simp only [hdesc, decide_eq_true_eq] at hpq
    omega
  · intro s hs t ht
    rw [hout] at hs
    cases hsrt : sorted with
    | nil => rw [hsrt] at hs; simp at hs
    | cons e rest =>
      rw [hsrt, List.take_succ_cons, List.map_cons, List.head?_cons,
        Option.some.injEq] at hs
      obtain ⟨q, hq, hqk⟩ := countColors_mem_key hexes t ht
      have hqs : q ∈ sorted := (hmem_cnts q).mpr hq
      have hqcount : q.2 = hexes.count q.1 :=
        countColors_entry_count hexes q hq
      have hecount : e.2 = hexes.count e.1 :=
        hentry e (by rw [hsrt]; exact List.mem_cons_self e rest)
      rw [← hs, ← hqk]
      rw [hsrt] at hqs
      rcases List.mem_cons.mp hqs with rfl | hqrest
      · omega
      · have hqe := List.rel_of_pairwise_cons (hsrt ▸ hsorted) hqrest
        simp only [hdesc, decide_eq_true_eq] at hqe
        omega
  · intro s hs t ht hne hcnt
    obtain ⟨p, hp3, hpk⟩ := (hmem_out s).mp hs
    obtain ⟨q, hq3, hqk⟩ := (hmem_out t).mp ht
    have hpq_ne : p ≠ q := fun he => hne (by rw [← hpk, ← hqk, he])
    have hpsorted : p ∈ sorted := List.take_subset 3 sorted hp3
    have hqsorted : q ∈ sorted := List.take_subset 3 sorted hq3
    have hpc : p ∈ cnts := (hmem_cnts p).mp hpsorted
    have hqc : q ∈ cnts := (hmem_cnts q).mp hqsorted
    have hp2 : p.2 = q.2 := by
      have h1 := hentry p hpsorted
      have h2 := hentry q hqsorted
      rw [h1, h2, hpk, hqk]
      exact hcnt
    have hsort_to_cnts : [p, q].Sublist sorted → [p, q].Sublist cnts := by
      intro hps
      rcases pair_sublist_total hpc hqc hpq_ne with h | h
      · exact h
      · exfalso
        have hqp_sorted : [q, p].Sublist sorted :=
          List.pair_sublist_mergeSort htrans htotal
            (by simp only [hdesc, decide_eq_true_eq]; omega) h
        exact hpq_ne (pair_sublist_asymm hnodup_sorted hps hqp_sorted)
    have hcnts_to_sorted : [p, q].Sublist cnts → [p, q].Sublist sorted :=
      fun h => List.pair_sublist_mergeSort htrans htotal
        (by simp only [hdesc, decide_eq_true_eq]; omega) h
    have hfwd : (getDominantColors data).indexOf s <
        (getDominantColors data).indexOf t →
        [p, q].Sublist (sorted.take 3) := by
      intro hlt
      have hst : [s, t].Sublist (getDominantColors data) :=
        pair_sublist_of_indexOf_lt hout_nodup hs ht hne hlt
      rw [hout, List.sublist_map_iff] at hst
      obtain ⟨l', hl', heq⟩ := hst
      match l', heq, hl' with
      | [p₀, q₀], heq, hl' =>
        simp only [List.map_cons, List.map_nil, List.cons.injEq,
          and_true] at heq
        obtain ⟨hp0, hq0⟩ := heq
        have hp₀3 : p₀ ∈ sorted.take 3 :=
          hl'.subset (List.mem_cons_self _ _)
        have hq₀3 : q₀ ∈ sorted.take 3 :=
          hl'.subset (List.mem_cons_of_mem _ (List.mem_cons_self _ _))
        have hpp : p₀ = p :=
          key_inj hkeys_nodup_take hp₀3 hp3 (by rw [hp0] at hpk; exact hpk.symm)
        have hqq : q₀ = q :=
          key_inj hkeys_nodup_take hq₀3 hq3 (by rw [hq0] at hqk; exact hqk.symm)
        rw [hpp, hqq] at hl'
        exact hl'
    have hbwd : [p, q].Sublist (sorted.take 3) →
        (getDominantColors data).indexOf s <
          (getDominantColors data).indexOf t := by
      intro hpq
      have hst : [s, t].Sublist (getDominantColors data) := by
        rw [hout]
        have hmapped := hpq.map Prod.fst
        rw [List.map_cons, List.map_cons, List.map_nil, hpk, hqk]
          at hmapped
        exact hmapped
      exact indexOf_lt_of_pair_sublist hout_nodup hst hne
    have hhex_fwd : hexes.indexOf s < hexes.indexOf t →
        [p, q].Sublist cnts := by
      intro hlt
      rcases pair_sublist_total hpc hqc hpq_ne with h | h
      · exact h
      · have hcontra := countColors_pair_indexOf hexes q p h
        rw [hpk, hqk] at hcontra
        omega
    have hhex_bwd : [p, q].Sublist cnts →
        hexes.indexOf s < hexes.indexOf t := by
      intro h
      have hidx := countColors_pair_indexOf hexes p q h
      rwa [hpk, hqk] at hidx
    have htake_to_sorted : [p, q].Sublist (sorted.take 3) →
        [p, q].Sublist sorted :=
      fun h => h.trans (List.take_sublist 3 sorted)
    have hsorted_to_take : [p, q].Sublist sorted →
        [p, q].Sublist (sorted.take 3) := by
      intro h
      have hlt := indexOf_lt_of_pair_sublist hnodup_sorted h hpq_ne
      rw [indexOf_take hp3, indexOf_take hq3] at hlt
      exact pair_sublist_of_indexOf_lt htake3_nodup hp3 hq3 hpq_ne hlt
    constructor
    · intro hlt
      exact hhex_bwd (hsort_to_cnts (htake_to_sorted (hfwd hlt)))
    · intro hlt
      exact hbwd (hsorted_to_take (hcnts_to_sorted (hhex_fwd hlt)))
  · intro s hs t ht htout hcnt
    obtain ⟨p, hp3, hpk⟩ := (hmem_out s).mp hs
    obtain ⟨q, hq, hqk⟩ := countColors_mem_key hexes t ht
    have hqsorted : q ∈ sorted := (hmem_cnts q).mpr hq
    have hpsorted : p ∈ sorted := List.take_subset 3 sorted hp3
    have hpc : p ∈ cnts := (hmem_cnts p).mp hpsorted
    have hne : s ≠ t := fun he => htout (he ▸ hs)
    have hpq_ne : p ≠ q := fun he => hne (by rw [← hpk, ← hqk, he])
    have hq_not_take : q ∉ sorted.take 3 := by
      intro hmem
      exact htout ((hmem_out t).mpr ⟨q, hmem, hqk⟩)
    have hidx_p : sorted.indexOf p < (sorted.take 3).length := by
      rw [indexOf_take hp3]
      exact indexOf_lt_length_of_mem hp3
    have hidx_q : (sorted.take 3).length ≤ sorted.indexOf q := by
      have hsplit : sorted.indexOf q =
          (sorted.take 3).length + (sorted.drop 3).indexOf q := by
        conv_lhs => rw [← List.take_append_drop 3 sorted]
        exact indexOf_append_right (sorted.drop 3) hq_not_take
      omega
    have hpair_sorted : [p, q].Sublist sorted :=
      pair_sublist_of_indexOf_lt hnodup_sorted hpsorted hqsorted hpq_ne
        (by omega)
    have hp2 : p.2 = q.2 := by
      have h1 := hentry p hpsorted
      have h2 := hentry q hqsorted
      rw [h1, h2, hpk, hqk]
      exact hcnt
    have hpair_cnts : [p, q].Sublist cnts := by
      rcases pair_sublist_total hpc hq hpq_ne with h | h
      · exact h
      · exfalso
        have hqp := List.pair_sublist_mergeSort htrans htotal
          (by simp only [hdesc, decide_eq_true_eq]; omega) h
        exact hpq_ne (pair_sublist_asymm hnodup_sorted hpair_sorted hqp)
    have hidx := countColors_pair_indexOf hexes p q hpair_cnts
    rwa [hpk, hqk] at hidx

/-- C9 witness: the dominant-color properties instantiated on a concrete
one-pixel canvas. -/
theorem C9_witness :
    (∀ x ∈ [255, 0, 0, 255], x < 256) ∧
    ((getDominantColors [255, 0, 0, 255]).length ≤ 3 ∧
     (∀ s ∈ getDominantColors [255, 0, 0, 255],
       isValidHexColor s = true) ∧
     (getDominantColors [255, 0, 0, 255]).Pairwise
       (fun s t => (sampleHexes [255, 0, 0, 255]).count t ≤
         (sampleHexes [255, 0, 0, 255]).count s) ∧
     (∀ s, (getDominantColors [255, 0, 0, 255]).head? = some s →
       ∀ t ∈ sampleHexes [255, 0, 0, 255],
         (sampleHexes [255, 0, 0, 255]).count t ≤
           (sampleHexes [255, 0, 0, 255]).count s) ∧
     (∀ s ∈ getDominantColors [255, 0, 0, 255],
       ∀ t ∈ getDominantColors [255, 0, 0, 255], s ≠ t →
       (sampleHexes [255, 0, 0, 255]).count s =
         (sampleHexes [255, 0, 0, 255]).count t →
       ((getDominantColors [255, 0, 0, 255]).indexOf s <
           (getDominantColors [255, 0, 0, 255]).indexOf t ↔
         (sampleHexes [255, 0, 0, 255]).indexOf s <
           (sampleHexes [255, 0, 0, 255]).indexOf t)) ∧
     (∀ s ∈ getDominantColors [255, 0, 0, 255],
       ∀ t ∈ sampleHexes [255, 0, 0, 255],
       t ∉ getDominantColors [255, 0, 0, 255] →
       (sampleHexes [255, 0, 0, 255]).count s =
         (sampleHexes [255, 0, 0, 255]).count t →
       (sampleHexes [255, 0, 0, 255]).indexOf s <
         (sampleHexes [255, 0, 0, 255]).indexOf t)) :=
  ⟨by decide, C9_dominant_colors [255, 0, 0, 255] (by decide)⟩

end VisionQuest
